import Mathlib

/-!
Verification development for the BMS-SELECTION-KING controller-selection
optimizer (src/app.py).

The Python source is shallowly embedded here:
* point-requirement dictionaries over the keys {AI, AO, DI, DO, UI}
  become the `Reqs` structure over `Nat` (the RequirementVector invariant
  is non-negative integer counts, and the source's `max(0, a - b)` and
  `a -= min(a, b)` updates coincide with truncated subtraction);
* capacity dictionaries over {AI, AO, DI, DO, UI, UO, UIO} become `Caps`;
* monetary costs (SQL `Float` columns) are idealized as exact rationals
  `ℚ`, so cost sums and comparisons are exact;
* database rows (ControllerType, ServerModule, Accessory,
  ControllerSelection) become structures, and the solver functions take
  the relevant catalog lists as explicit arguments in place of the
  process-global SQLAlchemy queries;
* Python's stable `list.sort(key=..., reverse=...)` is realized by a
  stable insertion sort (`sortBy`), which produces the same list: the
  stable sort of a list by a total comparison is unique.

Each embedded definition mirrors one Python function of src/app.py and is
named after it.
-/

namespace BMS

/-- A panel's point-requirement vector: the `requirements` /
`remaining_requirements` dictionaries with keys AI, AO, DI, DO, UI. -/
structure Reqs where
  ai : Nat
  ao : Nat
  di : Nat
  dO : Nat
  ui : Nat
deriving DecidableEq, Repr

/-- A device capacity vector: keys AI, AO, DI, DO, UI, UO, UIO. -/
structure Caps where
  ai : Nat
  ao : Nat
  di : Nat
  dO : Nat
  ui : Nat
  uo : Nat
  uio : Nat
deriving DecidableEq, Repr

/-- Embeds `sum(remaining_requirements.values())` from the source. -/
def sumReqs (r : Reqs) : Nat :=
  r.ai + r.ao + r.di + r.dO + r.ui

def zeroReqs : Reqs := ⟨0, 0, 0, 0, 0⟩

/-- One drain step of the source, requirement side:
`take = min(req, pool); req -= take`. -/
def drainReq (req pool : Nat) : Nat := req - min req pool

/-- One drain step of the source, pool side:
`take = min(req, pool); pool -= take`. -/
def drainPool (req pool : Nat) : Nat := pool - min req pool

theorem drainReq_eq (a b : Nat) : drainReq a b = a - b := by
  unfold drainReq; omega

theorem drainPool_eq (a b : Nat) : drainPool a b = b - a := by
  unfold drainPool; omega

/-- Core of `can_cover_with_n` (src/app.py, inside
`find_optimal_controller`): the residual requirement vector left after
applying the supply pools in the source's fixed order.  The pools are the
seven `rem_cap` entries, already scaled by the unit count `n` by the
caller.  Order of operations, exactly as in the source:
1. dedicated capacity for each of AI, AO, DI, DO, UI (`take = min(req,
   cap)`, subtracted from both the requirement and the pool — only the
   UI pool is read again later, so only its updated value is named);
2. the remaining UI pool to remaining AI then remaining DI;
3. the remaining UO pool to remaining AO then remaining DO;
4. the remaining UIO pool to remaining AI, AO, DI, DO, UI in that order. -/
def allocResidualP (r : Reqs) (pAI pAO pDI pDO pUI pUO pUio : Nat) : Reqs :=
  -- 1) Use dedicated capacities first
  let rAI1 := drainReq r.ai pAI
  let rAO1 := drainReq r.ao pAO
  let rDI1 := drainReq r.di pDI
  let rDO1 := drainReq r.dO pDO
  let rUI1 := drainReq r.ui pUI
  let fUI1 := drainPool r.ui pUI
  -- 2) Use UI for remaining INPUTS (AI, DI)
  let rAI2 := drainReq rAI1 fUI1
  let fUI2 := drainPool rAI1 fUI1
  let rDI2 := drainReq rDI1 fUI2
  -- 3) Use UO for remaining OUTPUTS (AO, DO)
  let rAO2 := drainReq rAO1 pUO
  let fUO2 := drainPool rAO1 pUO
  let rDO2 := drainReq rDO1 fUO2
  -- 4) Use UIO for anything left
  let rAI3 := drainReq rAI2 pUio
  let g1 := drainPool rAI2 pUio
  let rAO3 := drainReq rAO2 g1
  let g2 := drainPool rAO2 g1
  let rDI3 := drainReq rDI2 g2
  let g3 := drainPool rDI2 g2
  let rDO3 := drainReq rDO2 g3
  let g4 := drainPool rDO2 g3
  let rUI3 := drainReq rUI1 g4
  ⟨rAI3, rAO3, rDI3, rDO3, rUI3⟩

/-- The residual computed by `can_cover_with_n`, with each `rem_cap` pool
initialized to `capacity * n` as in the source. -/
def allocResidual (c : Caps) (r : Reqs) (n : Nat) : Reqs :=
  allocResidualP r (c.ai * n) (c.ao * n) (c.di * n) (c.dO * n)
    (c.ui * n) (c.uo * n) (c.uio * n)

/-- Embeds `can_cover_with_n(controller, reqs, n)` (src/app.py): the source
returns `all(v <= 0 for v in rem_reqs.values())`; requirements are
non-negative and every subtraction is clamped by `min`, so over `Nat`
the test is equality with the zero vector. -/
def canCoverWithN (c : Caps) (r : Reqs) (n : Nat) : Bool :=
  allocResidual c r n = zeroReqs

/-- Closed form of the residual: every sequential clamped drain is a
truncated subtraction. -/
theorem allocResidualP_closed (r : Reqs) (pAI pAO pDI pDO pUI pUO pUio : Nat) :
    allocResidualP r pAI pAO pDI pDO pUI pUO pUio =
      ⟨((r.ai - pAI) - (pUI - r.ui)) - pUio,
       ((r.ao - pAO) - pUO) - (pUio - ((r.ai - pAI) - (pUI - r.ui))),
       ((r.di - pDI) - ((pUI - r.ui) - (r.ai - pAI))) -
         ((pUio - ((r.ai - pAI) - (pUI - r.ui))) - ((r.ao - pAO) - pUO)),
       ((r.dO - pDO) - (pUO - (r.ao - pAO))) -
         (((pUio - ((r.ai - pAI) - (pUI - r.ui))) - ((r.ao - pAO) - pUO)) -
           ((r.di - pDI) - ((pUI - r.ui) - (r.ai - pAI)))),
       (r.ui - pUI) -
         ((((pUio - ((r.ai - pAI) - (pUI - r.ui))) - ((r.ao - pAO) - pUO)) -
           ((r.di - pDI) - ((pUI - r.ui) - (r.ai - pAI)))) -
           ((r.dO - pDO) - (pUO - (r.ao - pAO))))⟩ := by
  simp only [allocResidualP, drainReq_eq, drainPool_eq]

/-- Every residual component shrinks (weakly) when every pool grows. -/
theorem allocResidualP_antitone (r : Reqs)
    (pAI pAO pDI pDO pUI pUO pUio qAI qAO qDI qDO qUI qUO qUio : Nat)
    (h1 : pAI ≤ qAI) (h2 : pAO ≤ qAO) (h3 : pDI ≤ qDI) (h4 : pDO ≤ qDO)
    (h5 : pUI ≤ qUI) (h6 : pUO ≤ qUO) (h7 : pUio ≤ qUio) :
    (allocResidualP r qAI qAO qDI qDO qUI qUO qUio).ai ≤
      (allocResidualP r pAI pAO pDI pDO pUI pUO pUio).ai ∧
    (allocResidualP r qAI qAO qDI qDO qUI qUO qUio).ao ≤
      (allocResidualP r pAI pAO pDI pDO pUI pUO pUio).ao ∧
    (allocResidualP r qAI qAO qDI qDO qUI qUO qUio).di ≤
      (allocResidualP r pAI pAO pDI pDO pUI pUO pUio).di ∧
    (allocResidualP r qAI qAO qDI qDO qUI qUO qUio).dO ≤
      (allocResidualP r pAI pAO pDI pDO pUI pUO pUio).dO ∧
    (allocResidualP r qAI qAO qDI qDO qUI qUO qUio).ui ≤
      (allocResidualP r pAI pAO pDI pDO pUI pUO pUio).ui := by
  simp only [allocResidualP_closed]
  refine ⟨?_, ?_, ?_, ?_, ?_⟩ <;> gcongr

/-! ### Claim C1: the Allocation Engine's fixed drain order

The claim-side procedure, written from the claim's words: dedicated
capacity for AI/AO/DI/DO only, then the full flexible `UI*n` pool to
remaining AI then DI, then `UO*n` to remaining AO then DO, then one
shared `UIO*n` pool to remaining AI, AO, DI, DO, UI, and feasibility is
"every residual ≤ 0".  This differs from the source, which also serves
the UI *requirement* from the UI pool during the dedicated step and
hands only the leftover UI pool to the flexible-input step. -/

/-- The procedure exactly as claim C1 states it (dedicated step covers
AI/AO/DI/DO only; the flexible-input pool is the full `UI*n`). -/
def claimC1Feasible (c : Caps) (r : Reqs) (n : Nat) : Bool :=
  -- dedicated capacity for each of AI/AO/DI/DO
  let rAI1 := drainReq r.ai (c.ai * n)
  let rAO1 := drainReq r.ao (c.ao * n)
  let rDI1 := drainReq r.di (c.di * n)
  let rDO1 := drainReq r.dO (c.dO * n)
  let rUI1 := r.ui
  -- flexible UI*n to remaining AI then remaining DI
  let rAI2 := drainReq rAI1 (c.ui * n)
  let fUI2 := drainPool rAI1 (c.ui * n)
  let rDI2 := drainReq rDI1 fUI2
  -- flexible UO*n to remaining AO then remaining DO
  let rAO2 := drainReq rAO1 (c.uo * n)
  let fUO2 := drainPool rAO1 (c.uo * n)
  let rDO2 := drainReq rDO1 fUO2
  -- a single shared UIO*n pool to remaining AI, AO, DI, DO, UI
  let rAI3 := drainReq rAI2 (c.uio * n)
  let g1 := drainPool rAI2 (c.uio * n)
  let rAO3 := drainReq rAO2 g1
  let g2 := drainPool rAO2 g1
  let rDI3 := drainReq rDI2 g2
  let g3 := drainPool rDI2 g2
  let rDO3 := drainReq rDO2 g3
  let g4 := drainPool rDO2 g3
  let rUI3 := drainReq rUI1 g4
  -- feasible exactly when the residual of every kind is ≤ 0
  decide (rAI3 ≤ 0 ∧ rAO3 ≤ 0 ∧ rDI3 ≤ 0 ∧ rDO3 ≤ 0 ∧ rUI3 ≤ 0)

/-- Claim C1 as amended: the dedicated step covers AI/AO/DI/DO *and UI*
(the UI requirement consumes UI capacity first), and the flexible-input
step then applies only the *remaining* UI pool to AI then DI; the rest of
the order is as the claim states.  Stated in closed form: each residual
is the chain of truncated subtractions left by that order. -/
def claimC1FeasibleAmended (c : Caps) (r : Reqs) (n : Nat) : Bool :=
  let rAI2 := (r.ai - c.ai * n) - (c.ui * n - r.ui)
  let rAO2 := (r.ao - c.ao * n) - c.uo * n
  let rDI2 := (r.di - c.di * n) - ((c.ui * n - r.ui) - (r.ai - c.ai * n))
  let rDO2 := (r.dO - c.dO * n) - (c.uo * n - (r.ao - c.ao * n))
  let rUI1 := r.ui - c.ui * n
  let g1 := c.uio * n - rAI2
  let g2 := g1 - rAO2
  let g3 := g2 - rDI2
  let g4 := g3 - rDO2
  decide (rAI2 - c.uio * n ≤ 0 ∧ rAO2 - g1 ≤ 0 ∧ rDI2 - g2 ≤ 0 ∧
    rDO2 - g3 ≤ 0 ∧ rUI1 - g4 ≤ 0)

/-- C1, counterexample: the engine serves the UI requirement from the UI
pool during the dedicated step, which the claim's fixed order omits.
With requirement {AI:1, UI:1} against capacity {UI:2} at n = 1 the
engine reports feasible, while the procedure the claim describes spends
the UI pool on AI and leaves the UI requirement uncovered. -/
theorem c1_counterexample :
    canCoverWithN ⟨0, 0, 0, 0, 2, 0, 0⟩ ⟨1, 0, 0, 0, 1⟩ 1 = true ∧
    claimC1Feasible ⟨0, 0, 0, 0, 2, 0, 0⟩ ⟨1, 0, 0, 0, 1⟩ 1 = false := by
  constructor
  · decide
  · decide

/-- C1 (amended): for every requirement vector, capacity vector and unit
multiplier, `can_cover_with_n` applies supply in the fixed order
dedicated (AI, AO, DI, DO, UI) → leftover UI to AI, DI → UO to AO, DO →
one shared UIO pool to AI, AO, DI, DO, UI, and reports feasible exactly
when every residual is ≤ 0. -/
theorem c1_alloc_order (c : Caps) (r : Reqs) (n : Nat) :
    canCoverWithN c r n = claimC1FeasibleAmended c r n := by
  simp only [canCoverWithN, allocResidual, allocResidualP_closed,
    claimC1FeasibleAmended, zeroReqs, Reqs.mk.injEq, Nat.le_zero, decide_eq_decide]

/-! ### Claim C2: feasibility is monotone in the unit count -/

/-- C2: if the Allocation Engine reports feasible for requirement `r`
against capacity `c` at quantity `n ≥ 1`, it also reports feasible at
every larger quantity `n'`. -/
theorem c2_canCover_monotone (c : Caps) (r : Reqs) (n n' : Nat)
    (hn : 1 ≤ n) (hlt : n < n') (h : canCoverWithN c r n = true) :
    canCoverWithN c r n' = true := by
  have hle : n ≤ n' := Nat.le_of_lt hlt
  have mono := allocResidualP_antitone r
    (c.ai * n) (c.ao * n) (c.di * n) (c.dO * n) (c.ui * n) (c.uo * n) (c.uio * n)
    (c.ai * n') (c.ao * n') (c.di * n') (c.dO * n') (c.ui * n') (c.uo * n') (c.uio * n')
    (Nat.mul_le_mul_left _ hle) (Nat.mul_le_mul_left _ hle)
    (Nat.mul_le_mul_left _ hle) (Nat.mul_le_mul_left _ hle)
    (Nat.mul_le_mul_left _ hle) (Nat.mul_le_mul_left _ hle)
    (Nat.mul_le_mul_left _ hle)
  simp only [canCoverWithN, allocResidual, zeroReqs, decide_eq_true_eq] at h ⊢
  have h1 := congrArg Reqs.ai h
  have h2 := congrArg Reqs.ao h
  have h3 := congrArg Reqs.di h
  have h4 := congrArg Reqs.dO h
  have h5 := congrArg Reqs.ui h
  simp only at h1 h2 h3 h4 h5
  have : (allocResidualP r (c.ai * n') (c.ao * n') (c.di * n') (c.dO * n')
      (c.ui * n') (c.uo * n') (c.uio * n')) = zeroReqs := by
    rcases mono with ⟨m1, m2, m3, m4, m5⟩
    have e1 : (allocResidualP r (c.ai * n') (c.ao * n') (c.di * n') (c.dO * n')
        (c.ui * n') (c.uo * n') (c.uio * n')).ai = 0 := by omega
    have e2 : (allocResidualP r (c.ai * n') (c.ao * n') (c.di * n') (c.dO * n')
        (c.ui * n') (c.uo * n') (c.uio * n')).ao = 0 := by omega
    have e3 : (allocResidualP r (c.ai * n') (c.ao * n') (c.di * n') (c.dO * n')
        (c.ui * n') (c.uo * n') (c.uio * n')).di = 0 := by omega
    have e4 : (allocResidualP r (c.ai * n') (c.ao * n') (c.di * n') (c.dO * n')
        (c.ui * n') (c.uo * n') (c.uio * n')).dO = 0 := by omega
    have e5 : (allocResidualP r (c.ai * n') (c.ao * n') (c.di * n') (c.dO * n')
        (c.ui * n') (c.uo * n') (c.uio * n')).ui = 0 := by omega
    cases hres : allocResidualP r (c.ai * n') (c.ao * n') (c.di * n') (c.dO * n')
      (c.ui * n') (c.uo * n') (c.uio * n')
    rw [hres] at e1 e2 e3 e4 e5
    simp only [zeroReqs]
    simp_all
  exact this

/-- Witness for C2 at a concrete input: requirement {DI:3} is covered by
capacity {DI:2} at n = 2, hence also at n = 3. -/
theorem c2_canCover_monotone_witness :
    1 ≤ 2 ∧ 2 < 3 ∧ canCoverWithN ⟨0, 0, 2, 0, 0, 0, 0⟩ ⟨0, 0, 3, 0, 0⟩ 2 = true ∧
      canCoverWithN ⟨0, 0, 2, 0, 0, 0, 0⟩ ⟨0, 0, 3, 0, 0⟩ 3 = true :=
  ⟨by decide, by decide, by decide,
    c2_canCover_monotone ⟨0, 0, 2, 0, 0, 0, 0⟩ ⟨0, 0, 3, 0, 0⟩ 2 3
      (by decide) (by decide) (by decide)⟩

end BMS

namespace BMS

/-! ### Catalog data: ControllerType and Accessory rows -/

/-- A `ControllerType` row (src/app.py): identity, seven capacity
columns, unit cost, and the `is_server` flag. -/
structure Controller where
  id : Nat
  name : String
  part : String
  ai : Nat
  ao : Nat
  di : Nat
  dO : Nat
  ui : Nat
  uo : Nat
  uio : Nat
  cost : ℚ
  isServer : Bool
deriving DecidableEq, Repr

/-- An `Accessory` row: `parent_part_number`, own part number, cost. -/
structure Accessory where
  parent : String
  part : String
  cost : ℚ
deriving DecidableEq, Repr

/-- Total cost of the mandatory accessories attached to a parent part
number: the source iterates
`Accessory.query.filter_by(parent_part_number=part)` and adds each cost. -/
def accessoriesCost (accs : List Accessory) (part : String) : ℚ :=
  (accs.filter (fun a => a.parent = part)).foldl (fun s a => s + a.cost) 0

/-- Embeds `calculate_controller_cost_with_accessories` (src/app.py): the
controller's unit cost plus all its mandatory accessories. -/
def controllerCost (accs : List Accessory) (c : Controller) : ℚ :=
  c.cost + accessoriesCost accs c.part

/-- The seven `rem_cap` entries of `can_cover_with_n` taken from a
controller row. -/
def toCaps (c : Controller) : Caps :=
  ⟨c.ai, c.ao, c.di, c.dO, c.ui, c.uo, c.uio⟩

/-! ### Claim C3: `find_optimal_controller` -/

/-- Embeds `lower_bound_n(controller, reqs)` (src/app.py), split into the
fold step `lbStep` and the fold `lowerBoundN`: optimistic per-kind
effective capacities; iterating `reqs.items()` in the dictionary order
AI, AO, DI, DO, UI, a kind with positive need and zero effective
capacity yields `math.inf` (embedded as `none`), otherwise the bound is
`max(1, max over needy kinds of ceil(need / cap))`; the float
`math.ceil(need / cap)` on integers is exactly `(need + cap - 1) / cap`. -/
def lbStep (acc : Option Nat) (pr : Nat × Nat) : Option Nat :=
  match acc with
  | none => none
  | some nlb =>
    if 0 < pr.1 then
      if pr.2 = 0 then none else some (Nat.max nlb ((pr.1 + pr.2 - 1) / pr.2))
    else some nlb

def lowerBoundN (c : Controller) (r : Reqs) : Option Nat :=
  let effAI := c.ai + c.ui + c.uio
  let effAO := c.ao + c.uo + c.uio
  let effDI := c.di + c.ui + c.uio
  let effDO := c.dO + c.uo + c.uio
  let effUI := c.ui + c.uio
  [(r.ai, effAI), (r.ao, effAO), (r.di, effDI), (r.dO, effDO), (r.ui, effUI)].foldl
    lbStep (some 1)

/-- A candidate returned by `find_optimal_controller`: the
`best_option` dictionary {controller_id, quantity, cost}. -/
structure Candidate where
  controllerId : Nat
  quantity : Nat
  cost : ℚ
deriving DecidableEq, Repr

/-- Embeds `find_optimal_controller(point_requirements, controller_types)`
(src/app.py): per controller, start at the lower bound and probe the 20
quantities `n0 .. n0+19` with `can_cover_with_n`, accepting the first
feasible one; keep the strictly cheapest candidate across controllers
(`best_cost` starts at `float('inf')`, embedded as `none`). -/
def findOptimalController (accs : List Accessory) (r : Reqs)
    (ctrls : List Controller) : Option Candidate :=
  ctrls.foldl
    (fun best c =>
      match lowerBoundN c r with
      | none => best
      | some n0 =>
        match ((List.range 20).map (fun k => n0 + k)).find?
            (fun n => canCoverWithN (toCaps c) r n) with
        | none => best
        | some n =>
          let tc := controllerCost accs c * (n : ℚ)
          match best with
          | none => some ⟨c.id, n, tc⟩
          | some b => if tc < b.cost then some ⟨c.id, n, tc⟩ else best)
    none

/-- The lower bound exactly as claim C3 states it: `n0 = max over kinds
of ceil(requirement[kind] / effectiveCapacity[kind])` (no floor at 1),
with the controller skipped when some kind has nonzero requirement but
zero effective capacity. -/
def claimC3LowerBound (c : Controller) (r : Reqs) : Option Nat :=
  let effAI := c.ai + c.ui + c.uio
  let effAO := c.ao + c.uo + c.uio
  let effDI := c.di + c.ui + c.uio
  let effDO := c.dO + c.uo + c.uio
  let effUI := c.ui + c.uio
  if (0 < r.ai ∧ effAI = 0) ∨ (0 < r.ao ∧ effAO = 0) ∨ (0 < r.di ∧ effDI = 0) ∨
      (0 < r.dO ∧ effDO = 0) ∨ (0 < r.ui ∧ effUI = 0) then none
  else
    some (Nat.max (Nat.max ((r.ai + effAI - 1) / effAI) ((r.ao + effAO - 1) / effAO))
      (Nat.max (Nat.max ((r.di + effDI - 1) / effDI) ((r.dO + effDO - 1) / effDO))
        ((r.ui + effUI - 1) / effUI)))

/-- One controller's candidate as claim C3 describes it: probe
`n0 .. n0+19` with the exact Allocation Engine check, accept the first
feasible quantity, and cost it at
`(unit cost + mandatory accessory costs) × n`. -/
def claimC3Candidate (accs : List Accessory) (r : Reqs) (c : Controller) :
    Option Candidate :=
  match claimC3LowerBound c r with
  | none => none
  | some n0 =>
    match ((List.range 20).map (fun k => n0 + k)).find?
        (fun n => canCoverWithN (toCaps c) r n) with
    | none => none
    | some n => some ⟨c.id, n, controllerCost accs c * (n : ℚ)⟩

/-- The solver as claim C3 describes it: the minimum-cost candidate over
all controllers (first-seen wins ties), or none. -/
def claimC3Solver (accs : List Accessory) (r : Reqs)
    (ctrls : List Controller) : Option Candidate :=
  (ctrls.filterMap (claimC3Candidate accs r)).foldl
    (fun best cand =>
      match best with
      | none => some cand
      | some b => if cand.cost < b.cost then some cand else best)
    none

end BMS

namespace BMS

theorem lbStep_none (pr : Nat × Nat) : lbStep none pr = none := rfl

theorem foldl_lbStep_none (l : List (Nat × Nat)) : l.foldl lbStep none = none := by
  induction l with
  | nil => rfl
  | cons pr rest ih => simpa [lbStep_none] using ih

/-- Characterization of the `lower_bound_n` fold: it returns `none` when
some listed kind has positive need and zero capacity, and otherwise the
running maximum of the ceilings over the needy kinds. -/
theorem foldl_lbStep_char (l : List (Nat × Nat)) : ∀ i : Nat,
    l.foldl lbStep (some i) =
      if ∃ pr ∈ l, 0 < pr.1 ∧ pr.2 = 0 then none
      else some (l.foldl
        (fun acc pr => if 0 < pr.1 then Nat.max acc ((pr.1 + pr.2 - 1) / pr.2) else acc)
        i) := by
  induction l with
  | nil => intro i; simp
  | cons pr rest ih =>
    intro i
    rw [List.foldl_cons]
    by_cases h1 : 0 < pr.1
    · by_cases h2 : pr.2 = 0
      · rw [show lbStep (some i) pr = none by simp [lbStep, h1, h2], foldl_lbStep_none,
          if_pos ⟨pr, List.mem_cons_self pr rest, h1, h2⟩]
      · rw [show lbStep (some i) pr = some (Nat.max i ((pr.1 + pr.2 - 1) / pr.2)) by
            simp [lbStep, h1, h2], ih]
        have hcond : (∃ x ∈ pr :: rest, 0 < x.1 ∧ x.2 = 0) ↔
            (∃ x ∈ rest, 0 < x.1 ∧ x.2 = 0) := by
          rw [List.exists_mem_cons_iff]
          simp [h2]
        rw [List.foldl_cons, if_pos h1]
        by_cases h3 : ∃ x ∈ rest, 0 < x.1 ∧ x.2 = 0
        · rw [if_pos h3, if_pos (hcond.mpr h3)]
        · rw [if_neg h3, if_neg (fun hx => h3 (hcond.mp hx))]
    · rw [show lbStep (some i) pr = some i by simp [lbStep, h1], ih]
      have hcond : (∃ x ∈ pr :: rest, 0 < x.1 ∧ x.2 = 0) ↔
          (∃ x ∈ rest, 0 < x.1 ∧ x.2 = 0) := by
        rw [List.exists_mem_cons_iff]
        simp [h1]
      rw [List.foldl_cons, if_neg h1]
      by_cases h3 : ∃ x ∈ rest, 0 < x.1 ∧ x.2 = 0
      · rw [if_pos h3, if_pos (hcond.mpr h3)]
      · rw [if_neg h3, if_neg (fun hx => h3 (hcond.mp hx))]

theorem ceil_ge_one (need cap : Nat) (hneed : 0 < need) (hcap : cap ≠ 0) :
    1 ≤ (need + cap - 1) / cap := by
  rw [Nat.one_le_div_iff (Nat.pos_of_ne_zero hcap)]
  omega

theorem max_step_absorb (a need cap : Nat) :
    (if 0 < need then Nat.max a ((need + cap - 1) / cap) else a) =
      Nat.max a ((need + cap - 1) / cap) := by
  by_cases h : 0 < need
  · simp [h]
  · have hz : need = 0 := by omega
    subst hz
    have hc : (cap - 1) / cap = 0 := by
      match cap with
      | 0 => simp
      | k + 1 => simpa using Nat.div_eq_of_lt (by omega)
    simp [hc]

/-- Over a requirement vector with at least one positive count, the
source lower bound (which starts its running maximum at 1) agrees with
the claim's formula (the bare maximum of the five ceilings). -/
theorem lowerBoundN_eq_claim (c : Controller) (r : Reqs) (hr : 0 < sumReqs r) :
    lowerBoundN c r = claimC3LowerBound c r := by
  unfold lowerBoundN claimC3LowerBound
  rw [foldl_lbStep_char]
  simp only [List.exists_mem_cons_iff, List.not_exists_mem_nil, or_false,
    List.foldl, max_step_absorb]
  have hsum : 0 < r.ai ∨ 0 < r.ao ∨ 0 < r.di ∨ 0 < r.dO ∨ 0 < r.ui := by
    unfold sumReqs at hr; omega
  by_cases hbad : (0 < r.ai ∧ c.ai + c.ui + c.uio = 0) ∨
      (0 < r.ao ∧ c.ao + c.uo + c.uio = 0) ∨
      (0 < r.di ∧ c.di + c.ui + c.uio = 0) ∨
      (0 < r.dO ∧ c.dO + c.uo + c.uio = 0) ∨
      (0 < r.ui ∧ c.ui + c.uio = 0)
  · rw [if_pos hbad, if_pos hbad]
  · rw [if_neg hbad, if_neg hbad]
    congr 1
    push_neg at hbad
    obtain ⟨b1, b2, b3, b4, b5⟩ := hbad
    have key : 1 ≤ (r.ai + (c.ai + c.ui + c.uio) - 1) / (c.ai + c.ui + c.uio) ∨
        1 ≤ (r.ao + (c.ao + c.uo + c.uio) - 1) / (c.ao + c.uo + c.uio) ∨
        1 ≤ (r.di + (c.di + c.ui + c.uio) - 1) / (c.di + c.ui + c.uio) ∨
        1 ≤ (r.dO + (c.dO + c.uo + c.uio) - 1) / (c.dO + c.uo + c.uio) ∨
        1 ≤ (r.ui + (c.ui + c.uio) - 1) / (c.ui + c.uio) := by
      rcases hsum with h | h | h | h | h
      · exact Or.inl (ceil_ge_one _ _ h (b1 h))
      · exact Or.inr (Or.inl (ceil_ge_one _ _ h (b2 h)))
      · exact Or.inr (Or.inr (Or.inl (ceil_ge_one _ _ h (b3 h))))
      · exact Or.inr (Or.inr (Or.inr (Or.inl (ceil_ge_one _ _ h (b4 h)))))
      · exact Or.inr (Or.inr (Or.inr (Or.inr (ceil_ge_one _ _ h (b5 h)))))
    set t1 := (r.ai + (c.ai + c.ui + c.uio) - 1) / (c.ai + c.ui + c.uio) with ht1
    set t2 := (r.ao + (c.ao + c.uo + c.uio) - 1) / (c.ao + c.uo + c.uio) with ht2
    set t3 := (r.di + (c.di + c.ui + c.uio) - 1) / (c.di + c.ui + c.uio) with ht3
    set t4 := (r.dO + (c.dO + c.uo + c.uio) - 1) / (c.dO + c.uo + c.uio) with ht4
    set t5 := (r.ui + (c.ui + c.uio) - 1) / (c.ui + c.uio) with ht5
    clear_value t1 t2 t3 t4 t5
    have htree : 1 ≤ (((t1.max t2).max t3).max t4).max t5 := by
      have e1 : t1 ≤ (((t1.max t2).max t3).max t4).max t5 := by
        apply le_trans (Nat.le_max_left t1 t2)
        apply le_trans (Nat.le_max_left (t1.max t2) t3)
        apply le_trans (Nat.le_max_left ((t1.max t2).max t3) t4)
        exact Nat.le_max_left _ t5
      have e2 : t2 ≤ (((t1.max t2).max t3).max t4).max t5 := by
        apply le_trans (Nat.le_max_right t1 t2)
        apply le_trans (Nat.le_max_left (t1.max t2) t3)
        apply le_trans (Nat.le_max_left ((t1.max t2).max t3) t4)
        exact Nat.le_max_left _ t5
      have e3 : t3 ≤ (((t1.max t2).max t3).max t4).max t5 := by
        apply le_trans (Nat.le_max_right (t1.max t2) t3)
        apply le_trans (Nat.le_max_left ((t1.max t2).max t3) t4)
        exact Nat.le_max_left _ t5
      have e4 : t4 ≤ (((t1.max t2).max t3).max t4).max t5 := by
        apply le_trans (Nat.le_max_right ((t1.max t2).max t3) t4)
        exact Nat.le_max_left _ t5
      have e5 : t5 ≤ (((t1.max t2).max t3).max t4).max t5 :=
        Nat.le_max_right _ t5
      rcases key with k | k | k | k | k
      · exact le_trans k e1
      · exact le_trans k e2
      · exact le_trans k e3
      · exact le_trans k e4
      · exact le_trans k e5
    calc ((((Nat.max 1 t1).max t2).max t3).max t4).max t5
        = Nat.max 1 ((((t1.max t2).max t3).max t4).max t5) := by
          simp only [Nat.max_assoc]
      _ = (((t1.max t2).max t3).max t4).max t5 := Nat.max_eq_right htree
      _ = (t1.max t2).max ((t3.max t4).max t5) := by simp only [Nat.max_assoc]

end BMS

namespace BMS

/-- The per-controller fold step of `find_optimal_controller` agrees
with filtering the claim-described candidates and keeping the strictly
cheapest, provided the lower bounds agree. -/
theorem findOptimalController_fold_eq (accs : List Accessory) (r : Reqs)
    (hr : 0 < sumReqs r) (ctrls : List Controller) :
    ∀ best : Option Candidate,
    ctrls.foldl
      (fun best c =>
        match lowerBoundN c r with
        | none => best
        | some n0 =>
          match ((List.range 20).map (fun k => n0 + k)).find?
              (fun n => canCoverWithN (toCaps c) r n) with
          | none => best
          | some n =>
            let tc := controllerCost accs c * (n : ℚ)
            match best with
            | none => some ⟨c.id, n, tc⟩
            | some b => if tc < b.cost then some ⟨c.id, n, tc⟩ else best)
      best =
    (ctrls.filterMap (claimC3Candidate accs r)).foldl
      (fun best cand =>
        match best with
        | none => some cand
        | some b => if cand.cost < b.cost then some cand else best)
      best := by
  induction ctrls with
  | nil => intro best; rfl
  | cons c rest ih =>
    intro best
    rw [List.foldl_cons, List.filterMap_cons]
    cases hlb : claimC3LowerBound c r with
    | none =>
      have hlb' : lowerBoundN c r = none := by
        rw [lowerBoundN_eq_claim c r hr, hlb]
      simp only [hlb', claimC3Candidate, hlb]
      exact ih best
    | some n0 =>
      have hlb' : lowerBoundN c r = some n0 := by
        rw [lowerBoundN_eq_claim c r hr, hlb]
      cases hfind : ((List.range 20).map (fun k => n0 + k)).find?
          (fun n => canCoverWithN (toCaps c) r n) with
      | none =>
        simp only [hlb', hfind, claimC3Candidate, hlb]
        exact ih best
      | some n =>
        simp only [hlb', hfind, claimC3Candidate, hlb, List.foldl_cons]
        exact ih _

/-- C3 (amended): for every requirement vector with at least one
positive count, `find_optimal_controller` is exactly the claim's
procedure: per controller, the optimistic lower bound `n0` (maximum of
the per-kind ceilings), skipping controllers with a needy kind of zero
effective capacity, probing `n0 .. n0+19` with `can_cover_with_n`,
costing the first feasible quantity at
`(unit cost + mandatory accessories) × n`, and keeping the strictly
cheapest candidate over the catalog. -/
theorem c3_find_optimal_controller (accs : List Accessory) (r : Reqs)
    (ctrls : List Controller) (hr : 0 < sumReqs r) :
    findOptimalController accs r ctrls = claimC3Solver accs r ctrls := by
  unfold findOptimalController claimC3Solver
  exact findOptimalController_fold_eq accs r hr ctrls none

end BMS

namespace BMS

/-- C3, counterexample: on the all-zero requirement vector the claim's
lower-bound formula gives `n0 = 0` (every ceiling is zero), so the
claim-described solver accepts quantity 0 at cost 0, while the source
floors the lower bound at 1 and returns quantity 1 at the unit cost:
for a catalog of one controller {AI:1, cost 5} the two differ. -/
theorem c3_counterexample :
    findOptimalController [] zeroReqs
      [⟨7, "C1", "P1", 1, 0, 0, 0, 0, 0, 0, 5, false⟩] = some ⟨7, 1, 5⟩ ∧
    claimC3Solver [] zeroReqs
      [⟨7, "C1", "P1", 1, 0, 0, 0, 0, 0, 0, 5, false⟩] = some ⟨7, 0, 0⟩ := by
  constructor
  · have hlb : lowerBoundN ⟨7, "C1", "P1", 1, 0, 0, 0, 0, 0, 0, 5, false⟩ zeroReqs =
        some 1 := by decide
    have hfind : ((List.range 20).map (fun k => 1 + k)).find?
        (fun n => canCoverWithN
          (toCaps ⟨7, "C1", "P1", 1, 0, 0, 0, 0, 0, 0, 5, false⟩) zeroReqs n) =
        some 1 := by decide
    simp only [findOptimalController, List.foldl_cons, List.foldl_nil, hlb, hfind]
    simp [controllerCost, accessoriesCost]
  · have hlb : claimC3LowerBound ⟨7, "C1", "P1", 1, 0, 0, 0, 0, 0, 0, 5, false⟩ zeroReqs =
        some 0 := by decide
    have hfind : ((List.range 20).map (fun k => 0 + k)).find?
        (fun n => canCoverWithN
          (toCaps ⟨7, "C1", "P1", 1, 0, 0, 0, 0, 0, 0, 5, false⟩) zeroReqs n) =
        some 0 := by decide
    simp only [claimC3Solver, claimC3Candidate, List.filterMap_cons, hlb, hfind]
    simp [controllerCost, accessoriesCost]

end BMS

namespace BMS

/-- Witness for C3 (amended) at a concrete input with a nonzero
requirement. -/
theorem c3_find_optimal_controller_witness :
    0 < sumReqs ⟨1, 0, 0, 0, 0⟩ ∧
    findOptimalController [] ⟨1, 0, 0, 0, 0⟩
        [⟨7, "C1", "P1", 1, 0, 0, 0, 0, 0, 0, 5, false⟩] =
      claimC3Solver [] ⟨1, 0, 0, 0, 0⟩
        [⟨7, "C1", "P1", 1, 0, 0, 0, 0, 0, 0, 5, false⟩] :=
  ⟨by decide, c3_find_optimal_controller [] ⟨1, 0, 0, 0, 0⟩
    [⟨7, "C1", "P1", 1, 0, 0, 0, 0, 0, 0, 5, false⟩] (by decide)⟩

end BMS

namespace BMS

/-! ### Catalog data: ServerModule rows, and the AS-P greedy solver -/

/-- A `ServerModule` row (src/app.py): identity, seven capacity columns,
unit cost. -/
structure Module where
  id : Nat
  name : String
  part : String
  ai : Nat
  ao : Nat
  di : Nat
  dO : Nat
  ui : Nat
  uo : Nat
  uio : Nat
  cost : ℚ
deriving DecidableEq, Repr

/-- Embeds `total_points` in `generate_asp_solution`:
`ai + ao + di + do + ui + uio` (the UO column is not counted). -/
def totalPoints (m : Module) : Nat :=
  m.ai + m.ao + m.di + m.dO + m.ui + m.uio

/-- The numerator of the specificity score: the dedicated capacities. -/
def dedicatedPoints (m : Module) : Nat :=
  m.ai + m.ao + m.di + m.dO

/-- Embeds the composite module score of `generate_asp_solution`:
`0.7 * specificity + 0.3 * efficiency` with
`specificity = dedicated / total` and `efficiency = total / cost`
(the float constants 0.7 and 0.3 are the exact rationals 7/10, 3/10).
At `cost = 0` the source raises ZeroDivisionError instead of returning
a value, while `ℚ` division is total with `x / 0 = 0`: every result
about scores therefore either assumes positive costs or sits behind
the `aspScoringRaises` guard that models the caught exception. -/
def moduleScore (m : Module) : ℚ :=
  (7 / 10) * ((dedicatedPoints m : ℚ) / (totalPoints m : ℚ)) +
    (3 / 10) * ((totalPoints m : ℚ) / m.cost)

/-- Stable insertion: place `x` before the first `y` it may precede
(`le x y = true`).  With a total `le`, this realizes the placement of
Python's stable sort. -/
def insertBy {α : Type} (le : α → α → Bool) (x : α) : List α → List α
  | [] => [x]
  | y :: ys => if le x y then x :: y :: ys else y :: insertBy le x ys

/-- Stable insertion sort: the unique stable sort by a total comparison,
hence the embedding of Python's `list.sort`. -/
def sortBy {α : Type} (le : α → α → Bool) : List α → List α
  | [] => []
  | x :: xs => insertBy le x (sortBy le xs)

/-- Embeds the `module_scores` construction and
`module_scores.sort(key=lambda x: x[1], reverse=True)` of
`generate_asp_solution`: keep the modules with nonzero total capacity,
in catalog order, and stably sort them by descending score. -/
def sortedModules (mods : List Module) : List Module :=
  sortBy (fun a b => decide (moduleScore b ≤ moduleScore a))
    (mods.filter (fun m => decide (0 < totalPoints m)))

/-- Embeds the `helps` test of the greedy loop in
`generate_asp_solution` (note that a positive AO or DO requirement also
counts UI capacity as help, mirroring the source). -/
def moduleHelps (m : Module) (r : Reqs) : Bool :=
  (decide (0 < r.ai) && (decide (0 < m.ai) || decide (0 < m.ui) || decide (0 < m.uio))) ||
  (decide (0 < r.ao) && (decide (0 < m.ao) || decide (0 < m.ui) || decide (0 < m.uio))) ||
  (decide (0 < r.di) && (decide (0 < m.di) || decide (0 < m.ui) || decide (0 < m.uio))) ||
  (decide (0 < r.dO) && (decide (0 < m.dO) || decide (0 < m.ui) || decide (0 < m.uio))) ||
  (decide (0 < r.ui) && (decide (0 < m.ui) || decide (0 < m.uio)))

/-- Embeds the residual update of one module attachment in
`generate_asp_solution`:
1. `rem_x = max(0, rem_x - dedicated_x)` for AI, AO, DI, DO, UI;
2. `ui_flex = module.ui_capacity` — the source resets the flexible pool
   to the FULL UI capacity (not the leftover after the UI requirement
   was served in step 1) and offers it to AI, AO, DI, DO in that order
   (outputs included);
3. `uio_flex = module.uio_capacity` to AI, AO, DI, DO, UI in that order.
The source guards each take with `if rem_x > 0`, a no-op because
`take = min(0, flex) = 0`; the module's UO capacity is never used. -/
def attachStep (m : Module) (r : Reqs) : Reqs :=
  -- Prioritize specific inputs first
  let remAI := r.ai - m.ai
  let remAO := r.ao - m.ao
  let remDI := r.di - m.di
  let remDO := r.dO - m.dO
  let remUI := r.ui - m.ui
  -- Use flexible UI points
  let remAI2 := drainReq remAI m.ui
  let f1 := drainPool remAI m.ui
  let remAO2 := drainReq remAO f1
  let f2 := drainPool remAO f1
  let remDI2 := drainReq remDI f2
  let f3 := drainPool remDI f2
  let remDO2 := drainReq remDO f3
  -- Use flexible UIO points
  let remAI3 := drainReq remAI2 m.uio
  let g1 := drainPool remAI2 m.uio
  let remAO3 := drainReq remAO2 g1
  let g2 := drainPool remAO2 g1
  let remDI3 := drainReq remDI2 g2
  let g3 := drainPool remDI2 g2
  let remDO3 := drainReq remDO2 g3
  let g4 := drainPool remDO2 g3
  let remUI3 := drainReq remUI g4
  ⟨remAI3, remAO3, remDI3, remDO3, remUI3⟩

/-- Closed form of the attach-step residual. -/
theorem attachStep_closed (m : Module) (r : Reqs) :
    attachStep m r =
      ⟨((r.ai - m.ai) - m.ui) - m.uio,
       ((r.ao - m.ao) - (m.ui - (r.ai - m.ai))) -
         (m.uio - ((r.ai - m.ai) - m.ui)),
       ((r.di - m.di) - ((m.ui - (r.ai - m.ai)) - (r.ao - m.ao))) -
         ((m.uio - ((r.ai - m.ai) - m.ui)) -
           ((r.ao - m.ao) - (m.ui - (r.ai - m.ai)))),
       ((r.dO - m.dO) - (((m.ui - (r.ai - m.ai)) - (r.ao - m.ao)) - (r.di - m.di))) -
         (((m.uio - ((r.ai - m.ai) - m.ui)) -
           ((r.ao - m.ao) - (m.ui - (r.ai - m.ai)))) -
           ((r.di - m.di) - ((m.ui - (r.ai - m.ai)) - (r.ao - m.ao)))),
       (r.ui - m.ui) -
         ((((m.uio - ((r.ai - m.ai) - m.ui)) -
           ((r.ao - m.ao) - (m.ui - (r.ai - m.ai)))) -
           ((r.di - m.di) - ((m.ui - (r.ai - m.ai)) - (r.ao - m.ao)))) -
           ((r.dO - m.dO) - (((m.ui - (r.ai - m.ai)) - (r.ao - m.ao)) - (r.di - m.di))))⟩ := by
  simp only [attachStep, drainReq_eq, drainPool_eq]

/-- One attach never increases any residual component. -/
theorem attachStep_le (m : Module) (r : Reqs) :
    (attachStep m r).ai ≤ r.ai ∧ (attachStep m r).ao ≤ r.ao ∧
    (attachStep m r).di ≤ r.di ∧ (attachStep m r).dO ≤ r.dO ∧
    (attachStep m r).ui ≤ r.ui := by
  simp only [attachStep_closed]
  refine ⟨?_, ?_, ?_, ?_, ?_⟩ <;>
    first
    | exact le_trans (Nat.sub_le _ _) (le_trans (Nat.sub_le _ _) (Nat.sub_le _ _))
    | exact le_trans (Nat.sub_le _ _) (Nat.sub_le _ _)

/-- An attach that changes the residual strictly decreases its sum. -/
theorem attachStep_decrease (m : Module) (r : Reqs)
    (hne : attachStep m r ≠ r) :
    sumReqs (attachStep m r) < sumReqs r := by
  obtain ⟨l1, l2, l3, l4, l5⟩ := attachStep_le m r
  rcases Nat.lt_or_ge (sumReqs (attachStep m r)) (sumReqs r) with h | h
  · exact h
  · exfalso
    apply hne
    unfold sumReqs at h
    have e1 : (attachStep m r).ai = r.ai := by omega
    have e2 : (attachStep m r).ao = r.ao := by omega
    have e3 : (attachStep m r).di = r.di := by omega
    have e4 : (attachStep m r).dO = r.dO := by omega
    have e5 : (attachStep m r).ui = r.ui := by omega
    cases hA : attachStep m r
    rw [hA] at e1 e2 e3 e4 e5
    cases r
    simp_all

end BMS

namespace BMS

/-- Embeds the inner `while True` loop of `generate_asp_solution` for one
module type: while the module `helps`, attach one unit (adding its cost
and its accessories' costs); if the residual update changes nothing the
unit is rolled back (its cost subtracted again, netted out here) and the
loop exits; if the residual reaches zero the loop exits.  Returns the
final residual, the number of units kept, and the accumulated cost. -/
def attachLoop (accs : List Accessory) (m : Module) (r : Reqs) (cnt : Nat)
    (cost : ℚ) : Reqs × Nat × ℚ :=
  if moduleHelps m r then
    if h : attachStep m r = r then (r, cnt, cost)
    else
      let cost2 := cost + m.cost + accessoriesCost accs m.part
      if sumReqs (attachStep m r) = 0 then (attachStep m r, cnt + 1, cost2)
      else attachLoop accs m (attachStep m r) (cnt + 1) cost2
  else (r, cnt, cost)
termination_by sumReqs r
decreasing_by exact attachStep_decrease m r h

/-- Embeds the outer `for module in sorted_modules` loop of
`generate_asp_solution`, accumulating the kept units per module type and
the running cost, and stopping as soon as the residual is zero. -/
def aspLoop (accs : List Accessory) :
    List Module → Reqs → List (Module × Nat) → ℚ → Reqs × List (Module × Nat) × ℚ
  | [], r, acc, cost => (r, acc, cost)
  | m :: rest, r, acc, cost =>
    let res := attachLoop accs m r 0 cost
    let acc2 := if res.2.1 = 0 then acc else acc ++ [(m, res.2.1)]
    if sumReqs res.1 = 0 then (res.1, acc2, res.2.2)
    else aspLoop accs rest res.1 acc2 res.2.2

/-- Embeds the consolidation of `required_modules` into per-part-number
quantities (a dict keyed by part number, in first-seen order, keeping
the first-seen module's fields). -/
def consolidateStep (acc : List (Module × Nat)) (mc : Module × Nat) :
    List (Module × Nat) :=
  if acc.any (fun x => x.1.part = mc.1.part) then
    acc.map (fun x => if x.1.part = mc.1.part then (x.1, x.2 + mc.2) else x)
  else acc ++ [mc]

def consolidate (l : List (Module × Nat)) : List (Module × Nat) :=
  l.foldl consolidateStep []

/-- A produced server solution: the fields of the returned dictionary
that the claims speak about (server identity, module quantities, total
cost).  The name/description strings are display-only and omitted. -/
structure Solution where
  serverId : Nat
  modules : List (Module × Nat)
  totalCost : ℚ
deriving DecidableEq, Repr

/-- Embeds `generate_asp_solution(asp_server, requirements,
server_modules)` (src/app.py): base cost is the server plus its
accessories; greedily attach scored modules; infeasible (`None`) when a
positive residual remains, otherwise the consolidated module list and
total cost. -/
def generateAspSolution (accs : List Accessory) (server : Controller)
    (mods : List Module) (r : Reqs) : Option Solution :=
  let baseCost := server.cost + accessoriesCost accs server.part
  let res := aspLoop accs (sortedModules mods) r [] baseCost
  if 0 < sumReqs res.1 then none
  else some ⟨server.id, consolidate res.2.1, res.2.2⟩

end BMS

namespace BMS

theorem insertBy_perm {α : Type} (le : α → α → Bool) (x : α) (l : List α) :
    (insertBy le x l).Perm (x :: l) := by
  induction l with
  | nil => exact List.Perm.refl _
  | cons y ys ih =>
    by_cases h : le x y
    · simp [insertBy, h]
    · simp only [insertBy, if_neg h]
      exact (ih.cons y).trans (List.Perm.swap x y ys)

theorem sortBy_perm {α : Type} (le : α → α → Bool) (l : List α) :
    (sortBy le l).Perm l := by
  induction l with
  | nil => exact List.Perm.refl _
  | cons x xs ih => exact (insertBy_perm le x (sortBy le xs)).trans (ih.cons x)

theorem insertBy_pairwise {α : Type} (le : α → α → Bool)
    (htot : ∀ a b, le a b = false → le b a = true)
    (htrans : ∀ a b c, le a b = true → le b c = true → le a c = true)
    (x : α) (l : List α) (hl : l.Pairwise (fun a b => le a b = true)) :
    (insertBy le x l).Pairwise (fun a b => le a b = true) := by
  induction l with
  | nil => simp [insertBy]
  | cons y ys ih =>
    rcases List.pairwise_cons.mp hl with ⟨hy, hys⟩
    by_cases h : le x y
    · simp only [insertBy, if_pos h]
      refine List.pairwise_cons.mpr ⟨?_, hl⟩
      intro z hz
      rcases List.mem_cons.mp hz with hzx | hz'
      · rw [hzx]; exact h
      · exact htrans x y z h (hy z hz')
    · simp only [insertBy, if_neg h]
      refine List.pairwise_cons.mpr ⟨?_, ih hys⟩
      intro z hz
      have hz' := (insertBy_perm le x ys).mem_iff.mp hz
      rcases List.mem_cons.mp hz' with hzx | hz2
      · rw [hzx]; exact htot x y (by simpa using h)
      · exact hy z hz2

theorem sortBy_pairwise {α : Type} (le : α → α → Bool)
    (htot : ∀ a b, le a b = false → le b a = true)
    (htrans : ∀ a b c, le a b = true → le b c = true → le a c = true)
    (l : List α) : (sortBy le l).Pairwise (fun a b => le a b = true) := by
  induction l with
  | nil => simp [sortBy]
  | cons x xs ih => exact insertBy_pairwise le htot htrans x (sortBy le xs) ih

theorem insertBy_filter_of_neg {α : Type} (p : α → Bool) (le : α → α → Bool)
    (x : α) (l : List α) (hx : p x = false) :
    (insertBy le x l).filter p = l.filter p := by
  induction l with
  | nil => simp [insertBy, hx]
  | cons y ys ih =>
    by_cases h : le x y
    · simp [insertBy, h, List.filter_cons, hx]
    · simp [insertBy, h, List.filter_cons, ih]

theorem insertBy_filter_of_pos {α : Type} (p : α → Bool) (le : α → α → Bool)
    (x : α) (l : List α) (hx : p x = true)
    (hpass : ∀ y ∈ l, le x y = false → p y = false) :
    (insertBy le x l).filter p = x :: l.filter p := by
  induction l with
  | nil => simp [insertBy, hx]
  | cons y ys ih =>
    by_cases h : le x y
    · simp [insertBy, h, List.filter_cons, hx]
    · have hy : p y = false := hpass y (List.mem_cons_self y ys) (by simpa using h)
      have ih2 := ih (fun z hz hf => hpass z (List.mem_cons_of_mem y hz) hf)
      simp [insertBy, h, List.filter_cons, hy, ih2]

/-- Stability of the insertion sort: restricted to any class of elements
that is upward-closed under "must come later" (`le x y = false`), the
sorted list preserves the original order. -/
theorem sortBy_filter_stable {α : Type} (p : α → Bool) (le : α → α → Bool)
    (l : List α)
    (hcl : ∀ x ∈ l, p x = true → ∀ y ∈ l, le x y = false → p y = false) :
    (sortBy le l).filter p = l.filter p := by
  induction l with
  | nil => rfl
  | cons x xs ih =>
    have ihxs := ih (fun a ha pa b hb hf =>
      hcl a (List.mem_cons_of_mem x ha) pa b (List.mem_cons_of_mem x hb) hf)
    show (insertBy le x (sortBy le xs)).filter p = (x :: xs).filter p
    by_cases hx : p x
    · rw [insertBy_filter_of_pos p le x _ hx ?hp, ihxs, List.filter_cons, if_pos hx]
      case hp =>
        intro y hy hf
        exact hcl x (List.mem_cons_self x xs) hx y
          (List.mem_cons_of_mem x ((sortBy_perm le xs).mem_iff.mp hy)) hf
    · have hx' : p x = false := by simpa using hx
      rw [insertBy_filter_of_neg p le x _ hx', ihxs, List.filter_cons, if_neg hx]

end BMS

namespace BMS

/-- The capacity vector of a module, for feeding the Allocation Engine. -/
def moduleCaps (m : Module) : Caps :=
  ⟨m.ai, m.ao, m.di, m.dO, m.ui, m.uo, m.uio⟩

/-- Claim C4 as amended: one attach step applies the module's dedicated
capacities to AI/AO/DI/DO/UI, then a flexible pool equal to the module's
FULL UI capacity (not reduced by the UI requirement it just served) to
remaining AI, AO, DI, DO in that order, then the UIO capacity to
remaining AI, AO, DI, DO, UI in that order; there is no UO stage, the
UI pool may satisfy outputs, and one unit of UI capacity can count both
against the UI requirement and against another kind.  Stated in closed
form over truncated subtraction. -/
def claimC4AttachAmended (m : Module) (r : Reqs) : Reqs :=
  let a1 := r.ai - m.ai
  let o1 := r.ao - m.ao
  let d1 := r.di - m.di
  let e1 := r.dO - m.dO
  let u1 := r.ui - m.ui
  -- full UI pool to AI, AO, DI, DO
  let a2 := a1 - m.ui
  let o2 := o1 - (m.ui - a1)
  let d2 := d1 - ((m.ui - a1) - o1)
  let e2 := e1 - (((m.ui - a1) - o1) - d1)
  -- UIO pool to AI, AO, DI, DO, UI
  let a3 := a2 - m.uio
  let o3 := o2 - (m.uio - a2)
  let d3 := d2 - ((m.uio - a2) - o2)
  let e3 := e2 - (((m.uio - a2) - o2) - d2)
  let u3 := u1 - ((((m.uio - a2) - o2) - d2) - e2)
  ⟨a3, o3, d3, e3, u3⟩

/-- C4, counterexample: the attach step of `generate_asp_solution` does
not coincide with the Allocation Engine at quantity 1.  A module with
only UI capacity 1 fully covers a residual {AO:1} in the attach step
(UI spent on an output), while the engine leaves AO uncovered; and the
same module fully covers {AI:1, UI:1} in the attach step, counting its
single UI point against two requirement points. -/
theorem c4_counterexample :
    attachStep ⟨1, "M", "PM", 0, 0, 0, 0, 1, 0, 0, 10⟩ ⟨0, 1, 0, 0, 0⟩ = zeroReqs ∧
    allocResidual (moduleCaps ⟨1, "M", "PM", 0, 0, 0, 0, 1, 0, 0, 10⟩)
      ⟨0, 1, 0, 0, 0⟩ 1 = ⟨0, 1, 0, 0, 0⟩ ∧
    attachStep ⟨1, "M", "PM", 0, 0, 0, 0, 1, 0, 0, 10⟩ ⟨1, 0, 0, 0, 1⟩ = zeroReqs ∧
    allocResidual (moduleCaps ⟨1, "M", "PM", 0, 0, 0, 0, 1, 0, 0, 10⟩)
      ⟨1, 0, 0, 0, 1⟩ 1 = ⟨1, 0, 0, 0, 0⟩ := by
  refine ⟨by decide, by decide, by decide, by decide⟩

/-- C4 (amended): for every residual and module, the attach step of the
modular-server solver computes the residual described by
`claimC4AttachAmended` — dedicated capacities first, then the full UI
pool over AI, AO, DI, DO, then UIO over AI, AO, DI, DO, UI — rather
than the Allocation Engine's dedicated → UI/UO → UIO hierarchy. -/
theorem c4_attach_residual (m : Module) (r : Reqs) :
    attachStep m r = claimC4AttachAmended m r := by
  rw [attachStep_closed]
  simp only [claimC4AttachAmended]

/-- C10: one pass of the inner attach loop either changes nothing (and
is rolled back, exiting the loop) or strictly decreases the total
remaining requirement by at least 1; this is the termination measure of
`attachLoop`, making the greedy solver a total function. -/
theorem c10_attach_decrease (m : Module) (r : Reqs)
    (h : attachStep m r ≠ r) :
    sumReqs (attachStep m r) + 1 ≤ sumReqs r :=
  attachStep_decrease m r h

/-- Witness for C10: a module with AI capacity 1 strictly shrinks the
residual {AI:2}. -/
theorem c10_attach_decrease_witness :
    attachStep ⟨1, "M", "PM", 1, 0, 0, 0, 0, 0, 0, 10⟩ ⟨2, 0, 0, 0, 0⟩ ≠ ⟨2, 0, 0, 0, 0⟩ ∧
    sumReqs (attachStep ⟨1, "M", "PM", 1, 0, 0, 0, 0, 0, 0, 10⟩ ⟨2, 0, 0, 0, 0⟩) + 1 ≤
      sumReqs ⟨2, 0, 0, 0, 0⟩ :=
  ⟨by decide, c10_attach_decrease ⟨1, "M", "PM", 1, 0, 0, 0, 0, 0, 0, 10⟩
    ⟨2, 0, 0, 0, 0⟩ (by decide)⟩

end BMS

namespace BMS

/-- Every module-quantity pair accumulated by the greedy loop either was
already in the accumulator or names a module from the iterated list. -/
theorem aspLoop_modules (accs : List Accessory) :
    ∀ (l : List Module) (r : Reqs) (acc : List (Module × Nat)) (cost : ℚ),
      ∀ mc ∈ (aspLoop accs l r acc cost).2.1, mc ∈ acc ∨ mc.1 ∈ l := by
  intro l
  induction l with
  | nil => intro r acc cost mc hmc; exact Or.inl hmc
  | cons m rest ih =>
    intro r acc cost mc hmc
    simp only [aspLoop] at hmc
    by_cases hz : sumReqs (attachLoop accs m r 0 cost).1 = 0
    · rw [if_pos hz] at hmc
      by_cases hc : (attachLoop accs m r 0 cost).2.1 = 0
      · rw [if_pos hc] at hmc
        exact Or.inl hmc
      · rw [if_neg hc] at hmc
        rcases List.mem_append.mp hmc with hmem | hmem
        · exact Or.inl hmem
        · rcases List.mem_singleton.mp hmem with rfl
          exact Or.inr (List.mem_cons_self m rest)
    · rw [if_neg hz] at hmc
      by_cases hc : (attachLoop accs m r 0 cost).2.1 = 0
      · rw [if_pos hc] at hmc
        rcases ih _ _ _ mc hmc with hmem | hmem
        · exact Or.inl hmem
        · exact Or.inr (List.mem_cons_of_mem m hmem)
      · rw [if_neg hc] at hmc
        rcases ih _ _ _ mc hmc with hmem | hmem
        · rcases List.mem_append.mp hmem with hmem2 | hmem2
          · exact Or.inl hmem2
          · rcases List.mem_singleton.mp hmem2 with rfl
            exact Or.inr (List.mem_cons_self m rest)
        · exact Or.inr (List.mem_cons_of_mem m hmem)

theorem consolidateStep_fst {P : Module → Prop}
    (acc : List (Module × Nat)) (mc : Module × Nat)
    (hacc : ∀ x ∈ acc, P x.1) (hmc : P mc.1) :
    ∀ x ∈ consolidateStep acc mc, P x.1 := by
  unfold consolidateStep
  by_cases h : acc.any (fun x => x.1.part = mc.1.part)
  · rw [if_pos h]
    intro x hx
    rcases List.mem_map.mp hx with ⟨y, hy, hxy⟩
    by_cases hp : y.1.part = mc.1.part
    · rw [if_pos hp] at hxy
      rw [← hxy]
      exact hacc y hy
    · rw [if_neg hp] at hxy
      rw [← hxy]
      exact hacc y hy
  · rw [if_neg h]
    intro x hx
    rcases List.mem_append.mp hx with hmem | hmem
    · exact hacc x hmem
    · rcases List.mem_singleton.mp hmem with rfl
      exact hmc

theorem consolidate_fst {P : Module → Prop} (l : List (Module × Nat))
    (hl : ∀ mc ∈ l, P mc.1) : ∀ x ∈ consolidate l, P x.1 := by
  unfold consolidate
  suffices h : ∀ (l : List (Module × Nat)) (acc : List (Module × Nat)),
      (∀ x ∈ acc, P x.1) → (∀ mc ∈ l, P mc.1) →
      ∀ x ∈ l.foldl consolidateStep acc, P x.1 by
    exact h l [] (fun x hx => absurd hx (List.not_mem_nil x)) hl
  intro l
  induction l with
  | nil => intro acc hacc _ x hx; exact hacc x hx
  | cons mc rest ih =>
    intro acc hacc hl x hx
    rw [List.foldl_cons] at hx
    exact ih (consolidateStep acc mc)
      (consolidateStep_fst acc mc hacc (hl mc (List.mem_cons_self mc rest)))
      (fun y hy => hl y (List.mem_cons_of_mem mc hy)) x hx

end BMS

namespace BMS

/-- C5 (amended): for every module catalog (with positive module costs,
which the source's float division presupposes), the modular-server
solver scores exactly the modules with nonzero `total_points` — the
sum of the AI, AO, DI, DO, UI and UIO capacities, the UO column
excluded — with `score = 0.7*(dedicated/total) + 0.3*(total/cost)`
over that same total, and iterates them in descending score order with
ties kept in catalog order (stable sort); modules whose `total_points`
is zero are never part of an attached solution. -/
theorem c5_module_scoring (mods : List Module)
    (hcost : ∀ m ∈ mods, 0 < m.cost) :
    (sortedModules mods).Perm (mods.filter (fun m => decide (0 < totalPoints m))) ∧
    (sortedModules mods).Pairwise (fun a b => moduleScore b ≤ moduleScore a) ∧
    (∀ q : ℚ, (sortedModules mods).filter (fun m => decide (moduleScore m = q)) =
      (mods.filter (fun m => decide (0 < totalPoints m))).filter
        (fun m => decide (moduleScore m = q))) ∧
    (∀ m ∈ sortedModules mods, moduleScore m =
      (7 / 10) * ((dedicatedPoints m : ℚ) / (totalPoints m : ℚ)) +
        (3 / 10) * ((totalPoints m : ℚ) / m.cost)) ∧
    (∀ (accs : List Accessory) (server : Controller) (r : Reqs) (sol : Solution),
      generateAspSolution accs server mods r = some sol →
      ∀ mc ∈ sol.modules, 0 < totalPoints mc.1) := by
  have htot : ∀ a b : Module, decide (moduleScore b ≤ moduleScore a) = false →
      decide (moduleScore a ≤ moduleScore b) = true := by
    intro a b h
    simp only [decide_eq_false_iff_not, not_le] at h
    simpa using le_of_lt h
  have htrans : ∀ a b c : Module, decide (moduleScore b ≤ moduleScore a) = true →
      decide (moduleScore c ≤ moduleScore b) = true →
      decide (moduleScore c ≤ moduleScore a) = true := by
    intro a b c h1 h2
    simp only [decide_eq_true_eq] at h1 h2 ⊢
    exact le_trans h2 h1
  refine ⟨sortBy_perm _ _, ?_, ?_, ?_, ?_⟩
  · have hp := sortBy_pairwise _ htot htrans
      (mods.filter (fun m => decide (0 < totalPoints m)))
    exact hp.imp (fun h => by simpa using h)
  · intro q
    apply sortBy_filter_stable
    intro x _ hx y _ hf
    simp only [decide_eq_true_eq] at hx
    simp only [decide_eq_false_iff_not, not_le] at hf
    simp only [decide_eq_false_iff_not]
    intro hy
    rw [hx, hy] at hf
    exact lt_irrefl q hf
  · intro m _
    rfl
  · intro accs server r sol hsol mc hmc
    have hmem : ∀ x ∈ sortedModules mods, 0 < totalPoints x := by
      intro x hx
      have := (sortBy_perm _ _).mem_iff.mp hx
      have := List.mem_filter.mp this
      simpa using this.2
    simp only [generateAspSolution] at hsol
    by_cases hz : 0 < sumReqs (aspLoop accs (sortedModules mods) r []
        (server.cost + accessoriesCost accs server.part)).1
    · rw [if_pos hz] at hsol
      cases hsol
    · rw [if_neg hz] at hsol
      have hmods : sol.modules = consolidate (aspLoop accs (sortedModules mods) r []
          (server.cost + accessoriesCost accs server.part)).2.1 := by
        cases hsol
        rfl
      rw [hmods] at hmc
      refine consolidate_fst (P := fun x => 0 < totalPoints x) _ ?_ mc hmc
      intro mc2 hmc2
      rcases aspLoop_modules accs (sortedModules mods) r [] _ mc2 hmc2 with hmem2 | hmem2
      · exact absurd hmem2 (List.not_mem_nil mc2)
      · exact hmem mc2.1 hmem2

/-- Witness for C5 on a concrete two-module catalog with positive costs. -/
theorem c5_module_scoring_witness :
    (∀ m ∈ [(⟨1, "M1", "P1", 8, 0, 0, 0, 0, 0, 0, 50⟩ : Module),
        ⟨2, "M2", "P2", 0, 0, 0, 0, 0, 0, 8, 40⟩], 0 < m.cost) ∧
    (sortedModules [⟨1, "M1", "P1", 8, 0, 0, 0, 0, 0, 0, 50⟩,
        ⟨2, "M2", "P2", 0, 0, 0, 0, 0, 0, 8, 40⟩]).Perm
      ([⟨1, "M1", "P1", 8, 0, 0, 0, 0, 0, 0, 50⟩,
        ⟨2, "M2", "P2", 0, 0, 0, 0, 0, 0, 8, 40⟩].filter
        (fun m => decide (0 < totalPoints m))) :=
  ⟨by
    intro m hm
    rcases List.mem_cons.mp hm with h | h
    · rw [h]; norm_num
    · rcases List.mem_singleton.mp h with rfl
      norm_num,
   (c5_module_scoring [⟨1, "M1", "P1", 8, 0, 0, 0, 0, 0, 0, 50⟩,
      ⟨2, "M2", "P2", 0, 0, 0, 0, 0, 0, 8, 40⟩]
     (by
       intro m hm
       rcases List.mem_cons.mp hm with h | h
       · rw [h]; norm_num
       · rcases List.mem_singleton.mp h with rfl
         norm_num)).1⟩

end BMS

namespace BMS

/-- Embeds the feasibility loop of `generate_asb_solution` (src/app.py):
for each point type in order AI, AO, DI, DO, UI, if the requirement
exceeds the dedicated capacity the deficit is drawn from the shared UIO
pool, failing when the pool runs out. -/
def asbLoop : List (Nat × Nat) → Nat → Bool
  | [], _ => true
  | (need, cap) :: rest, uio =>
    -- `deficit = remaining[pt] - total_capacity[pt]`
    if cap < need then
      if uio < need - cap then false
      else asbLoop rest (uio - (need - cap))
    else asbLoop rest uio

/-- Embeds `generate_asb_solution(asb_server, requirements)` (src/app.py):
a single unit, no modules; feasible exactly when the sequential
deficit check succeeds; cost is the server plus its accessories. -/
def generateAsbSolution (accs : List Accessory) (s : Controller) (r : Reqs) :
    Option Solution :=
  if asbLoop [(r.ai, s.ai), (r.ao, s.ao), (r.di, s.di), (r.dO, s.dO), (r.ui, s.ui)]
      s.uio then
    some ⟨s.id, [], s.cost + accessoriesCost accs s.part⟩
  else none

/-- Sequentially drawing each deficit from the shared pool succeeds
exactly when the total deficit fits in the pool. -/
theorem asbLoop_char : ∀ (l : List (Nat × Nat)) (uio : Nat),
    asbLoop l uio = decide ((l.map (fun pr => pr.1 - pr.2)).sum ≤ uio) := by
  intro l
  induction l with
  | nil => intro uio; simp [asbLoop]
  | cons pr rest ih =>
    intro uio
    obtain ⟨need, cap⟩ := pr
    by_cases h1 : cap < need
    · by_cases h2 : uio < need - cap
      · have hfalse : decide ((List.map (fun pr => pr.1 - pr.2) ((need, cap) :: rest)).sum ≤ uio) = false := by
          simp only [List.map_cons, List.sum_cons, decide_eq_false_iff_not, not_le]
          omega
        simp only [asbLoop, if_pos h1, if_pos h2, hfalse]
      · have heq : decide ((rest.map (fun pr => pr.1 - pr.2)).sum ≤ uio - (need - cap)) =
            decide ((List.map (fun pr => pr.1 - pr.2) ((need, cap) :: rest)).sum ≤ uio) := by
          simp only [List.map_cons, List.sum_cons]
          rw [decide_eq_decide]
          omega
        simp only [asbLoop, if_pos h1, if_neg h2, ih, heq]
    · have heq : decide ((rest.map (fun pr => pr.1 - pr.2)).sum ≤ uio) =
          decide ((List.map (fun pr => pr.1 - pr.2) ((need, cap) :: rest)).sum ≤ uio) := by
        simp only [List.map_cons, List.sum_cons]
        rw [decide_eq_decide]
        omega
      simp only [asbLoop, if_neg h1, ih, heq]

/-- C6: the fixed-server solver evaluates exactly one unit under the
dedicated-plus-shared-UIO hierarchy (no separate UI/UO flexibility):
it returns a solution iff the sum of the per-kind deficits over the
dedicated capacities (kinds AI, AO, DI, DO, UI in order) fits in the
UIO pool, and then the cost is the server unit cost plus its mandatory
accessories, with no modules; otherwise none. -/
theorem c6_generate_asb (accs : List Accessory) (s : Controller) (r : Reqs) :
    generateAsbSolution accs s r =
      if (r.ai - s.ai) + ((r.ao - s.ao) + ((r.di - s.di) + ((r.dO - s.dO) +
          ((r.ui - s.ui) + 0)))) ≤ s.uio then
        some ⟨s.id, [], s.cost + accessoriesCost accs s.part⟩
      else none := by
  unfold generateAsbSolution
  rw [asbLoop_char]
  simp only [List.map_cons, List.map_nil, List.sum_cons, List.sum_nil,
    decide_eq_true_eq]

end BMS

namespace BMS

/-- Decides whether `pat` occurs at the head of `l`. -/
def startsWithSeq {α : Type} [DecidableEq α] : List α → List α → Bool
  | [], _ => true
  | _ :: _, [] => false
  | x :: xs, y :: ys => decide (x = y) && startsWithSeq xs ys

/-- Decides whether `pat` occurs contiguously anywhere in `l`: the
embedding of Python's `sub in s` substring test. -/
def containsSeq {α : Type} [DecidableEq α] (pat : List α) : List α → Bool
  | [] => startsWithSeq pat []
  | y :: ys => startsWithSeq pat (y :: ys) || containsSeq pat ys

/-- Embeds `'AS-P' in s.name` / `'AS-B' in s.name`. -/
def nameContains (sub s : String) : Bool :=
  containsSeq sub.toList s.toList

/-- Models the exception path of `generate_asp_solution`: its scoring
loop evaluates `efficiency = total_points / module.cost` for every
module with nonzero `total_points`, and Python raises ZeroDivisionError
as soon as such a module has cost 0 — before any other observable
effect of the solver.  So the call raises exactly when the catalog
contains a module with nonzero `total_points` and zero cost. -/
def aspScoringRaises (mods : List Module) : Bool :=
  mods.any (fun m => decide (0 < totalPoints m) && decide (m.cost = 0))

/-- Embeds `generate_optimal_server_solutions(panel_points)`
(src/app.py): among the `is_server` rows of the catalog, run the AS-P
greedy solver on the FIRST server whose name contains "AS-P" (if any),
run the AS-B check on every server whose name contains "AS-B", collect
the non-`None` results (AS-P first, then the AS-B results in catalog
order) and stably sort them by ascending total cost.  The source wraps
the AS-P call in `try/except Exception` that logs and drops the AS-P
solution; the reachable exception is the ZeroDivisionError of the
module scoring, modelled by the `aspScoringRaises` guard (the greedy
solver itself, `generateAspSolution`, is the exception-free path). -/
def generateOptimalServerSolutions (accs : List Accessory)
    (ctrls : List Controller) (mods : List Module) (r : Reqs) : List Solution :=
  let servers := ctrls.filter (fun s => s.isServer)
  let aspSols : List Solution :=
    match servers.find? (fun s => nameContains "AS-P" s.name) with
    | none => []
    | some aspServer =>
      -- try: generate_asp_solution(...) except Exception: drop
      if aspScoringRaises mods then []
      else
        match generateAspSolution accs aspServer mods r with
        | none => []
        | some sol => [sol]
  let asbSols := (servers.filter (fun s => nameContains "AS-B" s.name)).filterMap
    (fun s => generateAsbSolution accs s r)
  sortBy (fun a b => decide (a.totalCost ≤ b.totalCost)) (aspSols ++ asbSols)

/-- C7 (amended): the per-panel list contains exactly the server
solutions — the AS-P greedy solution of the first "AS-P"-named server
(dropped entirely when the module scoring raises, i.e. when some
nonzero-capacity module has cost 0) and the AS-B solutions of the
"AS-B"-named servers — sorted ascending by total cost; non-server
controllers are not consulted, so an empty list does not mean that no
catalog entry can satisfy the panel. -/
theorem c7_server_solutions (accs : List Accessory) (ctrls : List Controller)
    (mods : List Module) (r : Reqs) :
    (generateOptimalServerSolutions accs ctrls mods r).Pairwise
      (fun a b => a.totalCost ≤ b.totalCost) ∧
    (generateOptimalServerSolutions accs ctrls mods r).Perm
      ((if aspScoringRaises mods then []
        else (((ctrls.filter (fun s => s.isServer)).find?
          (fun s => nameContains "AS-P" s.name)).toList.filterMap
            (fun s => generateAspSolution accs s mods r))) ++
        ((ctrls.filter (fun s => s.isServer)).filter
          (fun s => nameContains "AS-B" s.name)).filterMap
            (fun s => generateAsbSolution accs s r)) := by
  constructor
  · have htot : ∀ a b : Solution, decide (a.totalCost ≤ b.totalCost) = false →
        decide (b.totalCost ≤ a.totalCost) = true := by
      intro a b h
      simp only [decide_eq_false_iff_not, not_le] at h
      simpa using le_of_lt h
    have htrans : ∀ a b c : Solution, decide (a.totalCost ≤ b.totalCost) = true →
        decide (b.totalCost ≤ c.totalCost) = true →
        decide (a.totalCost ≤ c.totalCost) = true := by
      intro a b c h1 h2
      simp only [decide_eq_true_eq] at h1 h2 ⊢
      exact le_trans h1 h2
    have hp := sortBy_pairwise (fun a b : Solution => decide (a.totalCost ≤ b.totalCost))
      htot htrans
    exact (hp _).imp (fun h => by simpa using h)
  · unfold generateOptimalServerSolutions
    refine (sortBy_perm _ _).trans ?_
    apply List.Perm.append_right
    by_cases hraise : aspScoringRaises mods
    · cases hfind : (ctrls.filter (fun s => s.isServer)).find?
          (fun s => nameContains "AS-P" s.name) with
      | none => simp [Option.toList, hraise]
      | some aspServer => simp [hraise]
    · cases hfind : (ctrls.filter (fun s => s.isServer)).find?
          (fun s => nameContains "AS-P" s.name) with
      | none => simp [Option.toList, hraise]
      | some aspServer =>
        cases hasp : generateAspSolution accs aspServer mods r with
        | none => simp [Option.toList, hasp, hraise]
        | some sol => simp [Option.toList, hasp, hraise]

end BMS

namespace BMS

/-- C7, counterexample: the solution list omits the single-device solver
entirely and consults only "AS-P"/"AS-B"-named servers.  For panel
requirement {DI:1}: a catalog with one non-server controller {DI:1,
cost 5} yields the empty list although that controller satisfies the
panel (the single-device solver finds it); and a catalog with one
feasible server named "XYZ 100" (neither AS-P nor AS-B) also yields the
empty list although the fixed-server check would accept it. -/
theorem c7_counterexample :
    generateOptimalServerSolutions []
      [⟨7, "C1", "P1", 0, 0, 1, 0, 0, 0, 0, 5, false⟩] [] ⟨0, 0, 1, 0, 0⟩ = [] ∧
    findOptimalController [] ⟨0, 0, 1, 0, 0⟩
      [⟨7, "C1", "P1", 0, 0, 1, 0, 0, 0, 0, 5, false⟩] = some ⟨7, 1, 5⟩ ∧
    generateOptimalServerSolutions []
      [⟨9, "XYZ 100", "P9", 0, 0, 100, 0, 0, 0, 0, 7, true⟩] [] ⟨0, 0, 1, 0, 0⟩ = [] ∧
    generateAsbSolution [] ⟨9, "XYZ 100", "P9", 0, 0, 100, 0, 0, 0, 0, 7, true⟩
      ⟨0, 0, 1, 0, 0⟩ = some ⟨9, [], 7⟩ := by
  refine ⟨?_, ?_, ?_, ?_⟩
  · rfl
  · have hlb : lowerBoundN ⟨7, "C1", "P1", 0, 0, 1, 0, 0, 0, 0, 5, false⟩
        ⟨0, 0, 1, 0, 0⟩ = some 1 := by decide
    have hfind : ((List.range 20).map (fun k => 1 + k)).find?
        (fun n => canCoverWithN
          (toCaps ⟨7, "C1", "P1", 0, 0, 1, 0, 0, 0, 0, 5, false⟩) ⟨0, 0, 1, 0, 0⟩ n) =
        some 1 := by decide
    simp only [findOptimalController, List.foldl_cons, List.foldl_nil, hlb, hfind]
    simp [controllerCost, accessoriesCost]
  · rfl
  · have hloop : asbLoop [((0 : Nat), (0 : Nat)), (0, 0), (1, 100), (0, 0), (0, 0)]
        0 = true := by decide
    simp only [generateAsbSolution]
    norm_num [asbLoop, accessoriesCost]

end BMS

namespace BMS

/-- Recursion of `run_controller_optimization` over the project's
panels: a panel whose point counts sum to zero is skipped; otherwise the
best controller (if any) is recorded as
`(panel id, controller id, quantity)`.  Panel ids are unique in the
database, so the result dict is modelled as the association list in
iteration order. -/
def runOptGo (accs : List Accessory) (cts : List Controller) :
    List (Nat × Reqs) → List (Nat × Nat × Nat)
  | [] => []
  | (pid, pts) :: rest =>
    if sumReqs pts = 0 then runOptGo accs cts rest
    else
      match findOptimalController accs pts cts with
      | none => runOptGo accs cts rest
      | some b => (pid, b.controllerId, b.quantity) :: runOptGo accs cts rest

/-- Embeds `run_controller_optimization(project_id, panels,
spare_percentage)` (src/app.py), after the panel point requirements have
been computed: only non-server controller types are considered. -/
def runControllerOptimization (accs : List Accessory) (ctrls : List Controller)
    (panels : List (Nat × Reqs)) : List (Nat × Nat × Nat) :=
  runOptGo accs (ctrls.filter (fun c => c.isServer = false)) panels

/-- C8, counterexample: a zero-requirement panel and an infeasible
panel produce the same outcome — absence from the optimization result —
so the two cases are not represented distinctly.  Panel 1 has all-zero
requirements; panel 2 requires {AI:1} against a catalog whose only
controller has no input capacity at all. -/
theorem c8_counterexample :
    runControllerOptimization [] [⟨7, "C1", "P1", 0, 0, 1, 0, 0, 0, 0, 5, false⟩]
      [(1, zeroReqs)] = [] ∧
    runControllerOptimization [] [⟨7, "C1", "P1", 0, 0, 1, 0, 0, 0, 0, 5, false⟩]
      [(2, ⟨1, 0, 0, 0, 0⟩)] = [] ∧
    findOptimalController [] ⟨1, 0, 0, 0, 0⟩
      [⟨7, "C1", "P1", 0, 0, 1, 0, 0, 0, 0, 5, false⟩] = none := by
  refine ⟨by decide, by decide, by decide⟩

/-- C8 (amended): a panel whose requirement counts are all zero is
skipped by the optimization — the solver never runs for it, no
controller is assigned, and no infeasibility arises; removing such a
panel from the input leaves the result unchanged.  (In the result
representation this is the same absence that an infeasible panel
produces, not a distinct outcome.) -/
theorem c8_zero_requirement (accs : List Accessory) (ctrls : List Controller)
    (pid : Nat) (pts : Reqs) (hz : sumReqs pts = 0) :
    runControllerOptimization accs ctrls [(pid, pts)] = [] ∧
    (∀ panels : List (Nat × Reqs),
      runControllerOptimization accs ctrls ((pid, pts) :: panels) =
        runControllerOptimization accs ctrls panels) := by
  constructor
  · simp [runControllerOptimization, runOptGo, hz]
  · intro panels
    simp [runControllerOptimization, runOptGo, hz]

/-- Witness for C8 (amended) at the zero requirement vector. -/
theorem c8_zero_requirement_witness :
    sumReqs zeroReqs = 0 ∧
    runControllerOptimization [] [] [(1, zeroReqs)] = [] :=
  ⟨by decide, (c8_zero_requirement [] [] 1 zeroReqs (by decide)).1⟩

end BMS

namespace BMS

/-! ### Claim C9: the bill-of-quantities aggregation
(`generate_controller_boq`, src/app.py)

The endpoint folds the project's `ControllerSelection` rows into three
dictionaries keyed by part number — `controller_boq`, `module_boq`,
`accessory_boq` — each entry accumulating `quantity += q` and setting
`total_cost = quantity * cost` with the cost of the item currently being
processed, plus a running grand total `total_controller_cost`.  The
dictionaries are modelled as functions from part numbers; the
display-only name/category fields and the separately-folded field-device
BOQ are omitted. -/

/-- A `ControllerSelection` row: the optionally-referenced controller
type, the selected quantity, the server flag, and the parsed
`server_modules` JSON as (module id, quantity) pairs. -/
structure Selection where
  ctrl : Option Controller
  quantity : Nat
  isServerSel : Bool
  serverModules : List (Nat × Nat)
deriving DecidableEq, Repr

/-- Which of the three BOQ dictionaries an update targets. -/
inductive BoqChan where
  | ctrlChan
  | modChan
  | accChan
deriving DecidableEq, Repr

/-- The three BOQ dictionaries (quantity and total cost per part
number) and the running grand total. -/
structure BoqState where
  ctrlQty : String → Nat
  ctrlTotal : String → ℚ
  modQty : String → Nat
  modTotal : String → ℚ
  accQty : String → Nat
  accTotal : String → ℚ
  grand : ℚ

def boqInit : BoqState :=
  ⟨fun _ => 0, fun _ => 0, fun _ => 0, fun _ => 0, fun _ => 0, fun _ => 0, 0⟩

/-- One dictionary update of the source:
`boq[part]['quantity'] += q; boq[part]['total_cost'] = boq[part]['quantity'] * cost;
total_controller_cost += q * cost`. -/
def bump (st : BoqState) (ch : BoqChan) (part : String) (q : Nat) (c : ℚ) :
    BoqState :=
  match ch with
  | BoqChan.ctrlChan =>
    ⟨fun p => if p = part then st.ctrlQty p + q else st.ctrlQty p,
     fun p => if p = part then ((st.ctrlQty part + q : Nat) : ℚ) * c else st.ctrlTotal p,
     st.modQty, st.modTotal, st.accQty, st.accTotal,
     st.grand + (q : ℚ) * c⟩
  | BoqChan.modChan =>
    ⟨st.ctrlQty, st.ctrlTotal,
     fun p => if p = part then st.modQty p + q else st.modQty p,
     fun p => if p = part then ((st.modQty part + q : Nat) : ℚ) * c else st.modTotal p,
     st.accQty, st.accTotal,
     st.grand + (q : ℚ) * c⟩
  | BoqChan.accChan =>
    ⟨st.ctrlQty, st.ctrlTotal, st.modQty, st.modTotal,
     fun p => if p = part then st.accQty p + q else st.accQty p,
     fun p => if p = part then ((st.accQty part + q : Nat) : ℚ) * c else st.accTotal p,
     st.grand + (q : ℚ) * c⟩

/-- The dictionary updates one selection performs, in source order: the
controller row and its mandatory accessories (at the selection
quantity), then — for server selections — each referenced module and
its accessories (at the module quantity). -/
def selOps (accs : List Accessory) (mods : List Module) (s : Selection) :
    List (BoqChan × String × Nat × ℚ) :=
  (match s.ctrl with
   | none => []
   | some ctl =>
     (BoqChan.ctrlChan, ctl.part, s.quantity, ctl.cost) ::
       (accs.filter (fun a => a.parent = ctl.part)).map
         (fun a => (BoqChan.accChan, a.part, s.quantity, a.cost))) ++
  (if s.isServerSel then
    s.serverModules.flatMap (fun mq =>
      match mods.find? (fun m => m.id = mq.1) with
      | none => []
      | some m =>
        (BoqChan.modChan, m.part, mq.2, m.cost) ::
          (accs.filter (fun a => a.parent = m.part)).map
            (fun a => (BoqChan.accChan, a.part, mq.2, a.cost)))
  else [])

def applyOps (st : BoqState) (ops : List (BoqChan × String × Nat × ℚ)) : BoqState :=
  ops.foldl (fun st op => bump st op.1 op.2.1 op.2.2.1 op.2.2.2) st

/-- Embeds the controller/module/accessory aggregation of
`generate_controller_boq`. -/
def generateControllerBoq (accs : List Accessory) (mods : List Module)
    (sels : List Selection) : BoqState :=
  sels.foldl (fun st s => applyOps st (selOps accs mods s)) boqInit

/-- Two updates are compatible when, if they target the same dictionary
and the same part number, they carry the same unit cost. -/
def opCompat (o1 o2 : BoqChan × String × Nat × ℚ) : Prop :=
  o1.1 = o2.1 → o1.2.1 = o2.2.1 → o1.2.2.2 = o2.2.2.2

end BMS

namespace BMS

/-- Two compatible dictionary updates commute. -/
theorem bump_comm (st : BoqState) (ch1 ch2 : BoqChan) (p1 p2 : String)
    (q1 q2 : Nat) (c1 c2 : ℚ)
    (hcompat : ch1 = ch2 → p1 = p2 → c1 = c2) :
    bump (bump st ch1 p1 q1 c1) ch2 p2 q2 c2 =
      bump (bump st ch2 p2 q2 c2) ch1 p1 q1 c1 := by
  have hqty : ∀ f : String → Nat,
      (fun p => if p = p2 then (if p = p1 then f p + q1 else f p) + q2
                else if p = p1 then f p + q1 else f p) =
      (fun p => if p = p1 then (if p = p2 then f p + q2 else f p) + q1
                else if p = p2 then f p + q2 else f p) := by
    intro f
    funext p
    rcases eq_or_ne p1 p2 with h12 | h12
    · subst h12
      by_cases hp : p = p1 <;> simp [hp] <;> omega
    · by_cases hp1 : p = p1 <;> by_cases hp2 : p = p2
      · exact absurd (hp1.symm.trans hp2) h12
      · simp [hp1, hp2, h12, Ne.symm h12]
      · simp [hp1, hp2, h12, Ne.symm h12]
      · simp [hp1, hp2, h12, Ne.symm h12]
  have htotal : ∀ (f : String → Nat) (g : String → ℚ), (p1 = p2 → c1 = c2) →
      (fun p => if p = p2 then
          (((if p2 = p1 then f p2 + q1 else f p2) + q2 : Nat) : ℚ) * c2
        else if p = p1 then ((f p1 + q1 : Nat) : ℚ) * c1 else g p) =
      (fun p => if p = p1 then
          (((if p1 = p2 then f p1 + q2 else f p1) + q1 : Nat) : ℚ) * c1
        else if p = p2 then ((f p2 + q2 : Nat) : ℚ) * c2 else g p) := by
    intro f g hc
    funext p
    rcases eq_or_ne p1 p2 with h12 | h12
    · have hcc := hc h12
      subst h12
      subst hcc
      by_cases hp : p = p1
      · simp only [hp, if_pos rfl]
        push_cast
        ring
      · simp [hp]
    · have h21 : p2 ≠ p1 := Ne.symm h12
      by_cases hp1 : p = p1 <;> by_cases hp2 : p = p2 <;>
        simp [hp1, hp2, h12, h21]
  cases st
  cases ch1 <;> cases ch2 <;>
    simp only [bump, BoqState.mk.injEq] <;>
    refine ⟨?_, ?_, ?_, ?_, ?_, ?_, by ring⟩ <;>
    first
      | rfl
      | trivial
      | exact hqty _
      | exact htotal _ _ (fun h => hcompat rfl h)

theorem applyOps_cons (st : BoqState) (o : BoqChan × String × Nat × ℚ)
    (ops : List (BoqChan × String × Nat × ℚ)) :
    applyOps st (o :: ops) = applyOps (bump st o.1 o.2.1 o.2.2.1 o.2.2.2) ops := rfl

/-- A single update commutes past a whole list of compatible updates. -/
theorem bump_applyOps (op : BoqChan × String × Nat × ℚ)
    (ops : List (BoqChan × String × Nat × ℚ))
    (h : ∀ o ∈ ops, opCompat op o) :
    ∀ st : BoqState,
      applyOps (bump st op.1 op.2.1 op.2.2.1 op.2.2.2) ops =
        bump (applyOps st ops) op.1 op.2.1 op.2.2.1 op.2.2.2 := by
  induction ops with
  | nil => intro st; rfl
  | cons o rest ih =>
    intro st
    rw [applyOps_cons, applyOps_cons,
      bump_comm st op.1 o.1 op.2.1 o.2.1 op.2.2.1 o.2.2.1 op.2.2.2 o.2.2.2
        (h o (List.mem_cons_self o rest))]
    exact ih (fun o2 ho2 => h o2 (List.mem_cons_of_mem o ho2)) _

/-- Two blocks of pairwise-compatible updates commute. -/
theorem applyOps_comm (ops1 ops2 : List (BoqChan × String × Nat × ℚ))
    (h : ∀ o1 ∈ ops1, ∀ o2 ∈ ops2, opCompat o1 o2) :
    ∀ st : BoqState,
      applyOps (applyOps st ops1) ops2 = applyOps (applyOps st ops2) ops1 := by
  induction ops1 with
  | nil => intro st; rfl
  | cons o rest ih =>
    intro st
    rw [applyOps_cons,
      ih (fun o1 h1 o2 h2 => h o1 (List.mem_cons_of_mem o h1) o2 h2) (bump st o.1 o.2.1 o.2.2.1 o.2.2.2),
      bump_applyOps o ops2 (fun o2 h2 => h o (List.mem_cons_self o rest) o2 h2) st,
      applyOps_cons]

end BMS

namespace BMS

/-- Origin of each update a selection generates: its referenced
controller row, an accessory row of the shared catalog, or a module row
of the shared catalog. -/
theorem selOps_cases (accs : List Accessory) (mods : List Module)
    (s : Selection) : ∀ o ∈ selOps accs mods s,
    (∃ ctl, s.ctrl = some ctl ∧ o.1 = BoqChan.ctrlChan ∧
      o.2.1 = ctl.part ∧ o.2.2.2 = ctl.cost) ∨
    (∃ a ∈ accs, o.1 = BoqChan.accChan ∧ o.2.1 = a.part ∧ o.2.2.2 = a.cost) ∨
    (∃ m ∈ mods, o.1 = BoqChan.modChan ∧ o.2.1 = m.part ∧ o.2.2.2 = m.cost) := by
  intro o ho
  unfold selOps at ho
  rcases List.mem_append.mp ho with hmem | hmem
  · cases hctl : s.ctrl with
    | none =>
      rw [hctl] at hmem
      exact absurd hmem (List.not_mem_nil o)
    | some ctl =>
      rw [hctl] at hmem
      rcases List.mem_cons.mp hmem with heq | hmap
      · exact Or.inl ⟨ctl, rfl, by rw [heq], by rw [heq], by rw [heq]⟩
      · rcases List.mem_map.mp hmap with ⟨a, hafil, heq⟩
        have hamem := (List.mem_filter.mp hafil).1
        exact Or.inr (Or.inl ⟨a, hamem, by rw [← heq], by rw [← heq], by rw [← heq]⟩)
  · by_cases hsrv : s.isServerSel
    · rw [if_pos hsrv] at hmem
      rcases List.mem_flatMap.mp hmem with ⟨mq, _, hin⟩
      cases hfind : mods.find? (fun m => m.id = mq.1) with
      | none =>
        rw [hfind] at hin
        exact absurd hin (List.not_mem_nil o)
      | some m =>
        rw [hfind] at hin
        have hmmem := List.mem_of_find?_eq_some hfind
        rcases List.mem_cons.mp hin with heq | hmap
        · exact Or.inr (Or.inr ⟨m, hmmem, by rw [heq], by rw [heq], by rw [heq]⟩)
        · rcases List.mem_map.mp hmap with ⟨a, hafil, heq⟩
          have hamem := (List.mem_filter.mp hafil).1
          exact Or.inr (Or.inl ⟨a, hamem, by rw [← heq], by rw [← heq], by rw [← heq]⟩)
    · rw [if_neg hsrv] at hmem
      exact absurd hmem (List.not_mem_nil o)

/-- C9 (amended): aggregation of the bill of quantities is
permutation-invariant — provided that any two accessories sharing a
part number have the same unit cost, likewise any two catalog modules,
and any two controllers referenced by the selections (the source's
database enforces unique part numbers for controllers and modules but
not for accessories).  Then any permutation of the selections yields
the same per-part quantities, the same per-part totals, and the same
grand total. -/
theorem c9_boq_permutation (accs : List Accessory) (mods : List Module)
    (sels sels2 : List Selection) (hperm : sels.Perm sels2)
    (hacc : ∀ a ∈ accs, ∀ b ∈ accs, a.part = b.part → a.cost = b.cost)
    (hmod : ∀ m ∈ mods, ∀ m2 ∈ mods, m.part = m2.part → m.cost = m2.cost)
    (hctrl : ∀ s ∈ sels, ∀ t ∈ sels, ∀ a b : Controller,
      s.ctrl = some a → t.ctrl = some b → a.part = b.part → a.cost = b.cost) :
    generateControllerBoq accs mods sels = generateControllerBoq accs mods sels2 := by
  unfold generateControllerBoq
  refine hperm.foldl_eq' ?_ boqInit
  intro x hx y hy st
  refine applyOps_comm (selOps accs mods x) (selOps accs mods y) ?_ st
  intro o1 h1 o2 h2 hch hpart
  rcases selOps_cases accs mods x o1 h1 with
    ⟨c1, hs1, hA1, hP1, hC1⟩ | ⟨a1, ha1, hA1, hP1, hC1⟩ | ⟨m1, hm1, hA1, hP1, hC1⟩ <;>
    rcases selOps_cases accs mods y o2 h2 with
      ⟨c2, hs2, hA2, hP2, hC2⟩ | ⟨a2, ha2, hA2, hP2, hC2⟩ | ⟨m2, hm2, hA2, hP2, hC2⟩ <;>
    rw [hA1, hA2] at hch <;> try exact BoqChan.noConfusion hch
  · rw [hC1, hC2]
    exact hctrl x hx y hy c1 c2 hs1 hs2 (by rw [← hP1, ← hP2, hpart])
  · rw [hC1, hC2]
    exact hacc a1 ha1 a2 ha2 (by rw [← hP1, ← hP2, hpart])
  · rw [hC1, hC2]
    exact hmod m1 hm1 m2 hm2 (by rw [← hP1, ← hP2, hpart])

end BMS

namespace BMS

/-- C9, counterexample: two accessory rows may share a part number with
different unit costs (the accessory table does not make part numbers
unique), and then the per-part total cost is final quantity times the
cost of the LAST accessory processed: aggregating two selections whose
controllers carry accessories (part "X", costs 5 and 7) in the two
orders gives totals 2×7 = 14 and 2×5 = 10 for part "X". -/
theorem c9_counterexample :
    (generateControllerBoq [⟨"PC1", "X", 5⟩, ⟨"PC2", "X", 7⟩] []
      [⟨some ⟨1, "C1", "PC1", 0, 0, 0, 0, 0, 0, 0, 100, false⟩, 1, false, []⟩,
       ⟨some ⟨2, "C2", "PC2", 0, 0, 0, 0, 0, 0, 0, 100, false⟩, 1, false, []⟩]).accTotal
      "X" = 14 ∧
    (generateControllerBoq [⟨"PC1", "X", 5⟩, ⟨"PC2", "X", 7⟩] []
      [⟨some ⟨2, "C2", "PC2", 0, 0, 0, 0, 0, 0, 0, 100, false⟩, 1, false, []⟩,
       ⟨some ⟨1, "C1", "PC1", 0, 0, 0, 0, 0, 0, 0, 100, false⟩, 1, false, []⟩]).accTotal
      "X" = 10 := by
  have h12 : ("PC1" : String) ≠ "PC2" := by decide
  have h21 : ("PC2" : String) ≠ "PC1" := by decide
  constructor
  · norm_num [generateControllerBoq, selOps, applyOps, bump, boqInit,
      List.filter_cons, List.filter_nil, List.map_cons, List.map_nil,
      List.foldl_cons, List.foldl_nil, h12, h21]
  · norm_num [generateControllerBoq, selOps, applyOps, bump, boqInit,
      List.filter_cons, List.filter_nil, List.map_cons, List.map_nil,
      List.foldl_cons, List.foldl_nil, h12, h21]

end BMS

namespace BMS

/-- Witness for C9 (amended): swapping two selections of the same
controller (part "PA", one mandatory accessory of part "X") leaves the
aggregate unchanged. -/
theorem c9_boq_permutation_witness :
    ([⟨some ⟨1, "C1", "PA", 0, 0, 0, 0, 0, 0, 0, 100, false⟩, 1, false, []⟩,
      ⟨some ⟨1, "C1", "PA", 0, 0, 0, 0, 0, 0, 0, 100, false⟩, 2, false, []⟩] :
        List Selection).Perm
      [⟨some ⟨1, "C1", "PA", 0, 0, 0, 0, 0, 0, 0, 100, false⟩, 2, false, []⟩,
       ⟨some ⟨1, "C1", "PA", 0, 0, 0, 0, 0, 0, 0, 100, false⟩, 1, false, []⟩] ∧
    generateControllerBoq [⟨"PA", "X", 5⟩] []
      [⟨some ⟨1, "C1", "PA", 0, 0, 0, 0, 0, 0, 0, 100, false⟩, 1, false, []⟩,
       ⟨some ⟨1, "C1", "PA", 0, 0, 0, 0, 0, 0, 0, 100, false⟩, 2, false, []⟩] =
    generateControllerBoq [⟨"PA", "X", 5⟩] []
      [⟨some ⟨1, "C1", "PA", 0, 0, 0, 0, 0, 0, 0, 100, false⟩, 2, false, []⟩,
       ⟨some ⟨1, "C1", "PA", 0, 0, 0, 0, 0, 0, 0, 100, false⟩, 1, false, []⟩] := by
  have hperm : ([⟨some ⟨1, "C1", "PA", 0, 0, 0, 0, 0, 0, 0, 100, false⟩, 1, false, []⟩,
      ⟨some ⟨1, "C1", "PA", 0, 0, 0, 0, 0, 0, 0, 100, false⟩, 2, false, []⟩] :
        List Selection).Perm
      [⟨some ⟨1, "C1", "PA", 0, 0, 0, 0, 0, 0, 0, 100, false⟩, 2, false, []⟩,
       ⟨some ⟨1, "C1", "PA", 0, 0, 0, 0, 0, 0, 0, 100, false⟩, 1, false, []⟩] :=
    List.Perm.swap _ _ _
  refine ⟨hperm, c9_boq_permutation _ _ _ _ hperm ?_ ?_ ?_⟩
  · intro a ha b hb hp
    rcases List.mem_singleton.mp ha with rfl
    rcases List.mem_singleton.mp hb with rfl
    rfl
  · intro m hm
    exact absurd hm (List.not_mem_nil m)
  · intro s hs t ht a b hsa htb hp
    have hval : ∀ u ∈ ([⟨some ⟨1, "C1", "PA", 0, 0, 0, 0, 0, 0, 0, 100, false⟩, 1, false, []⟩,
        ⟨some ⟨1, "C1", "PA", 0, 0, 0, 0, 0, 0, 0, 100, false⟩, 2, false, []⟩] :
          List Selection), ∀ w : Controller, u.ctrl = some w →
        w = ⟨1, "C1", "PA", 0, 0, 0, 0, 0, 0, 0, 100, false⟩ := by
      intro u hu w hw
      rcases List.mem_cons.mp hu with h | h
      · rw [h] at hw
        exact (Option.some.inj hw).symm
      · rcases List.mem_singleton.mp h with rfl
        exact (Option.some.inj hw).symm
    rw [hval s hs a hsa, hval t ht b htb]

end BMS

namespace BMS

/-- The "total capacity sum" exactly as claim C5 (and the spec's
seven-kind CapacityVector) states it: all seven capacity columns,
including UO. -/
def claimC5TotalCapacity (m : Module) : Nat :=
  m.ai + m.ao + m.di + m.dO + m.ui + m.uo + m.uio

/-- The module score exactly as claim C5 states it, built on the
seven-kind total capacity sum. -/
def claimC5Score (m : Module) : ℚ :=
  (7 / 10) * ((dedicatedPoints m : ℚ) / (claimC5TotalCapacity m : ℚ)) +
    (3 / 10) * ((claimC5TotalCapacity m : ℚ) / m.cost)

/-- C5, counterexample: the source's `total_points` omits the
`uo_capacity` column, so it is not the claim's seven-kind total
capacity sum.  A module with only UO capacity 4 has nonzero total
capacity per the claim yet is never scored (the scored list is empty),
and a module with AI 8, UO 8, cost 10 is scored 0.7·(8/8) + 0.3·(8/10)
by the code but 0.7·(8/16) + 0.3·(16/10) by the claim's formula. -/
theorem c5_counterexample :
    0 < claimC5TotalCapacity ⟨1, "M", "PM", 0, 0, 0, 0, 0, 4, 0, 10⟩ ∧
    sortedModules [⟨1, "M", "PM", 0, 0, 0, 0, 0, 4, 0, 10⟩] = [] ∧
    moduleScore ⟨2, "M2", "P2", 8, 0, 0, 0, 0, 8, 0, 10⟩ ≠
      claimC5Score ⟨2, "M2", "P2", 8, 0, 0, 0, 0, 8, 0, 10⟩ := by
  refine ⟨by decide, by decide, ?_⟩
  norm_num [moduleScore, claimC5Score, totalPoints, dedicatedPoints,
    claimC5TotalCapacity]

end BMS
